import Mathlib

/-!
# Verification of the TLS ClientHello record-overflow fuzzing harness

A shallow embedding of `scripts/test-invalid-client-hello-w-record-overflow.py`:
the scenario population the script builds (`conversations`), the sampling and
ordering of executed conversations, the per-conversation result classification
(PASS / FAIL / XFAIL / XPASS), the final report and exit status, and the
command-line option loop.  Components of the surrounding library that the
script imports but whose code is not part of this tree (the mutation engine
`fuzz_message`, the conversation `Runner`) are modelled from the written
specification and are marked as such in their doc comments.
-/

set_option autoImplicit false

namespace ClientHelloFuzz

/-! ## Python `dict` as an insertion-ordered association list

The script stores the scenario population in a Python `dict`
(`conversations = {}` and `conversations[name] = conversation`), and the
expected-failure registry likewise.  A Python `dict` keeps insertion order;
assigning to an existing key updates the value in place.  We model it as a
`List (α × β)` built by `dinsert`. -/

section PyDict

variable {α : Type} {β : Type} [DecidableEq α]

/-- `d[k] = v` on a Python dict: update in place if the key is present,
otherwise append the new binding at the end. -/
def dinsert (k : α) (v : β) : List (α × β) → List (α × β)
  | [] => [(k, v)]
  | (k', v') :: rest =>
    if k' = k then (k', v) :: rest else (k', v') :: dinsert k v rest

/-- `d[k]` / `k in d` on a Python dict: first (hence only) binding of `k`. -/
def dlookup (k : α) : List (α × β) → Option β
  | [] => none
  | (k', v') :: rest => if k' = k then some v' else dlookup k rest

/-- Building a dict by assigning each pair of `l` in order, as the script's
`conversations[...] = ...` statements do. -/
def buildDict (l : List (α × β)) : List (α × β) :=
  l.foldl (fun d kv => dinsert kv.1 kv.2 d) []

theorem keys_dinsert (k : α) (v : β) (d : List (α × β)) :
    (dinsert k v d).map Prod.fst =
      if k ∈ d.map Prod.fst then d.map Prod.fst else d.map Prod.fst ++ [k] := by
  induction d with
  | nil => simp [dinsert]
  | cons p rest ih =>
    by_cases h : p.1 = k
    · subst h
      simp [dinsert]
    · simp only [dinsert, if_neg h, List.map_cons, ih, List.mem_cons]
      have : ¬ (k = p.1) := fun hh => h hh.symm
      by_cases hm : k ∈ rest.map Prod.fst <;> simp [hm, this]

theorem nodup_keys_dinsert (k : α) (v : β) (d : List (α × β))
    (h : (d.map Prod.fst).Nodup) : ((dinsert k v d).map Prod.fst).Nodup := by
  rw [keys_dinsert]
  by_cases hm : k ∈ d.map Prod.fst
  · simpa [hm] using h
  · rw [if_neg hm, List.nodup_append]
    exact ⟨h, List.nodup_singleton k,
      by simpa [List.disjoint_singleton] using hm⟩

theorem nodup_keys_foldIns (l : List (α × β)) : ∀ d : List (α × β),
    (d.map Prod.fst).Nodup →
    ((l.foldl (fun d kv => dinsert kv.1 kv.2 d) d).map Prod.fst).Nodup := by
  induction l with
  | nil => intro d hd; simpa using hd
  | cons p rest ih =>
    intro d hd
    exact ih (dinsert p.1 p.2 d) (nodup_keys_dinsert p.1 p.2 d hd)

/-- The keys of a Python dict are distinct, whatever was assigned into it. -/
theorem nodup_keys_buildDict (l : List (α × β)) :
    ((buildDict l).map Prod.fst).Nodup :=
  nodup_keys_foldIns l [] (by simp)

theorem mem_dinsert (kv : α × β) (k : α) (v : β) :
    ∀ d : List (α × β), kv ∈ dinsert k v d → kv ∈ d ∨ kv = (k, v) := by
  intro d
  induction d with
  | nil => intro h; simpa [dinsert] using h
  | cons p rest ih =>
    rcases p with ⟨k', v'⟩
    intro h
    by_cases hp : k' = k
    · subst hp
      have hd : dinsert k' v ((k', v') :: rest) = (k', v) :: rest := by
        simp [dinsert]
      rw [hd] at h
      rcases List.mem_cons.mp h with h | h
      · right; exact h
      · left; exact List.mem_cons_of_mem _ h
    · have hd : dinsert k v ((k', v') :: rest) =
          (k', v') :: dinsert k v rest := by
        simp [dinsert, hp]
      rw [hd] at h
      rcases List.mem_cons.mp h with h | h
      · left
        rw [h]
        exact List.mem_cons_self _ _
      · rcases ih h with h' | h'
        · left; exact List.mem_cons_of_mem _ h'
        · right; exact h'

theorem mem_foldIns (kv : α × β) (l : List (α × β)) : ∀ d : List (α × β),
    kv ∈ l.foldl (fun d kv => dinsert kv.1 kv.2 d) d → kv ∈ d ∨ kv ∈ l := by
  induction l with
  | nil => intro d hd; left; simpa using hd
  | cons p rest ih =>
    intro d hd
    rcases ih (dinsert p.1 p.2 d) hd with h' | h'
    · rcases mem_dinsert kv p.1 p.2 d h' with h'' | h''
      · left; exact h''
      · right; simp [h'']
    · right; exact List.mem_cons_of_mem _ h'

/-- Every binding held by the dict was assigned into it at some point. -/
theorem mem_buildDict (kv : α × β) (l : List (α × β))
    (h : kv ∈ buildDict l) : kv ∈ l := by
  rcases mem_foldIns kv l [] h with h' | h'
  · simp at h'
  · exact h'

theorem mem_keys_dinsert (k k' : α) (v : β) (d : List (α × β)) :
    k ∈ (dinsert k' v d).map Prod.fst ↔ k = k' ∨ k ∈ d.map Prod.fst := by
  rw [keys_dinsert]
  by_cases hm : k' ∈ d.map Prod.fst
  · simp only [if_pos hm]
    constructor
    · intro h; right; exact h
    · rintro (rfl | h)
      · exact hm
      · exact h
  · simp only [if_neg hm, List.mem_append, List.mem_singleton]
    tauto

theorem mem_keys_foldIns (k : α) (l : List (α × β)) : ∀ d : List (α × β),
    (k ∈ (l.foldl (fun d kv => dinsert kv.1 kv.2 d) d).map Prod.fst ↔
      k ∈ d.map Prod.fst ∨ k ∈ l.map Prod.fst) := by
  induction l with
  | nil => intro d; simp
  | cons p rest ih =>
    intro d
    rw [List.foldl_cons, ih (dinsert p.1 p.2 d), mem_keys_dinsert]
    simp only [List.map_cons, List.mem_cons]
    tauto

/-- A key is present in the dict iff it was ever assigned. -/
theorem mem_keys_buildDict (k : α) (l : List (α × β)) :
    k ∈ (buildDict l).map Prod.fst ↔ k ∈ l.map Prod.fst := by
  rw [buildDict, mem_keys_foldIns]
  simp

theorem dlookup_dinsert_self (k : α) (v : β) (d : List (α × β)) :
    dlookup k (dinsert k v d) = some v := by
  induction d with
  | nil => simp [dinsert, dlookup]
  | cons p rest ih =>
    by_cases hp : p.1 = k
    · rcases p with ⟨k', v'⟩
      simp only at hp
      subst hp
      simp [dinsert, dlookup]
    · simp [dinsert, dlookup, hp, ih]

theorem dlookup_dinsert_ne (k k' : α) (v : β) (d : List (α × β)) (h : k' ≠ k) :
    dlookup k (dinsert k' v d) = dlookup k d := by
  induction d with
  | nil => simp [dinsert, dlookup, h]
  | cons p rest ih =>
    by_cases hp : p.1 = k'
    · rcases p with ⟨k'', v'⟩
      simp only at hp
      subst hp
      simp [dinsert, dlookup, h]
    · simp [dinsert, dlookup, hp, ih]

theorem dlookup_foldIns (k : α) (v : β) (l : List (α × β)) :
    ∀ d : List (α × β),
    ((k, v) ∈ l ∨ dlookup k d = some v) →
    (∀ p ∈ l, p.1 = k → p.2 = v) →
    dlookup k (l.foldl (fun d kv => dinsert kv.1 kv.2 d) d) = some v := by
  induction l with
  | nil =>
    intro d hd _hu
    rcases hd with h | h
    · simp at h
    · simpa using h
  | cons p rest ih =>
    intro d hd hu
    rw [List.foldl_cons]
    by_cases hp : p.1 = k
    · have hv : p.2 = v := hu p (List.mem_cons_self _ _) hp
      refine ih (dinsert p.1 p.2 d) (Or.inr ?_) ?_
      · rw [hp, hv, dlookup_dinsert_self]
      · exact fun q hq hqk => hu q (List.mem_cons_of_mem _ hq) hqk
    · refine ih (dinsert p.1 p.2 d) ?_ ?_
      · rcases hd with h | h
        · rcases List.mem_cons.mp h with h' | h'
          · exact absurd (congrArg Prod.fst h').symm hp
          · exact Or.inl h'
        · exact Or.inr (by rw [dlookup_dinsert_ne _ _ _ _ hp, h])
      · exact fun q hq hqk => hu q (List.mem_cons_of_mem _ hq) hqk

/-- If key `k` was assigned value `v` at least once, and every assignment to
`k` carried the same value `v`, the final dict maps `k` to `v`. -/
theorem dlookup_buildDict (k : α) (v : β) (l : List (α × β))
    (hmem : (k, v) ∈ l) (huniq : ∀ p ∈ l, p.1 = k → p.2 = v) :
    dlookup k (buildDict l) = some v :=
  dlookup_foldIns k v l [] (Or.inl hmem) huniq

end PyDict

/-! ## Substring containment

Python's `sub in str(exception)` test (line 400 of the script).  `""` is a
substring of everything, as in Python. -/

/-- `charsStart needle hay`: `hay` begins with `needle`. -/
def charsStart : List Char → List Char → Bool
  | [], _ => true
  | _ :: _, [] => false
  | c :: cs, h :: hs => c = h && charsStart cs hs

/-- `charsSub needle hay`: `needle` occurs contiguously inside `hay`. -/
def charsSub (needle : List Char) : List Char → Bool
  | [] => charsStart needle []
  | h :: hs => charsStart needle (h :: hs) || charsSub needle hs

/-- Python's `sub in hay` on strings. -/
def strContains (hay sub : String) : Bool :=
  charsSub sub.toList hay.toList

/-! ## Mutation engine -/

/-- Modelled from the spec: the Mutation Engine's `fuzz_message`
(`tlsfuzzer/messages.py`, imported by the script but not part of this tree).
Per §4.1 of the spec it takes a serialized message — an ordered sequence of
bytes — and offset→operation pairs, and returns a byte sequence identical to
the input except at the named offsets: at a substitution offset the output
byte is the given value, at an XOR offset it is the input byte XOR the given
value.  `xors` and `subs` map an offset to the value of the operation
registered there, `none` meaning no operation at that offset.  At an offset
carrying both operations the substitution is applied first.  Bytes are `Nat`s
below 256; XOR of two such values stays below 256, so no reduction is
needed. -/
def fuzz_message (input : List Nat) (xors subs : Nat → Option Nat) :
    List Nat :=
  go 0 input
where
  /-- Rewrite the bytes from offset `off` on. -/
  go : Nat → List Nat → List Nat
    | _, [] => []
    | off, b :: rest =>
      let b' := match subs off with
        | some v => v
        | none => b
      let b'' := match xors off with
        | some v => b' ^^^ v
        | none => b'
      b'' :: go (off + 1) rest

theorem fuzz_message_go_length (xors subs : Nat → Option Nat) :
    ∀ (off : Nat) (l : List Nat),
    (fuzz_message.go xors subs off l).length = l.length := by
  intro off l
  induction l generalizing off with
  | nil => rfl
  | cons b rest ih => simp [fuzz_message.go, ih]

/-- The mutated message has the length of the input. -/
theorem fuzz_message_length (input : List Nat) (xors subs : Nat → Option Nat) :
    (fuzz_message input xors subs).length = input.length :=
  fuzz_message_go_length xors subs 0 input

theorem fuzz_message_go_getElem (xors subs : Nat → Option Nat) :
    ∀ (off i : Nat) (l : List Nat), i < l.length →
    (fuzz_message.go xors subs off l)[i]? =
      some (match xors (off + i), subs (off + i), l.getD i 0 with
        | some x, some s, _ => s ^^^ x
        | some x, none, b => b ^^^ x
        | none, some s, _ => s
        | none, none, b => b) := by
  intro off i l
  induction l generalizing off i with
  | nil => intro h; simp at h
  | cons b rest ih =>
    intro h
    match i with
    | 0 =>
      simp only [fuzz_message.go, Nat.add_zero, List.getElem?_cons_zero,
        List.getD_cons_zero]
      rcases hx : xors off with _ | x <;> rcases hs : subs off with _ | s <;>
        simp [hx, hs]
    | i + 1 =>
      have hi : i < rest.length := by simpa using h
      have := ih (off + 1) i hi
      simp only [fuzz_message.go, List.getElem?_cons_succ, List.getD_cons_succ]
      rw [this]
      have harith : off + 1 + i = off + (i + 1) := by omega
      rw [harith]

/-- Byte-level reading of the mutated message at an in-bounds offset. -/
theorem fuzz_message_getElem (input : List Nat) (xors subs : Nat → Option Nat)
    (i : Nat) (h : i < input.length) :
    (fuzz_message input xors subs)[i]? =
      some (match xors i, subs i, input.getD i 0 with
        | some x, some s, _ => s ^^^ x
        | some x, none, b => b ^^^ x
        | none, some s, _ => s
        | none, none, b => b) := by
  have := fuzz_message_go_getElem xors subs 0 i input h
  simpa using this

/-! ## Message nodes and conversations

Modelled from the spec (§3, §4.2): a Message Node has a kind, an ordered list
of children, and an optional sibling; `add_child` appends a child and returns
it, so the script's `node = node.add_child(...)` chains build linear paths,
and `node.next_sibling = ExpectClose()` attaches a sibling to the final node.
The node class itself (`tlsfuzzer/messages.py` / `tlsfuzzer/expect.py`) is not
part of this tree; the node kinds below are exactly the constructors the
script instantiates, with the parameters the script passes. -/

/-- `tlslite.constants.AlertLevel` values used by the script. -/
inductive AlertLevel where
  | warning
  | fatal
  deriving DecidableEq

/-- `tlslite.constants.AlertDescription` values used by the script. -/
inductive AlertDesc where
  | close_notify
  | decode_error
  deriving DecidableEq

/-- `CipherSuite.TLS_EMPTY_RENEGOTIATION_INFO_SCSV` (code point 0xFF). -/
def scsv : Nat := 0xFF

/-- `CipherSuite.TLS_ECDHE_RSA_WITH_AES_128_CBC_SHA` (code point 0xC013). -/
def ecdheRsaAes128 : Nat := 0xC013

/-- `CipherSuite.TLS_RSA_WITH_AES_128_CBC_SHA` (code point 0x2F). -/
def rsaAes128 : Nat := 0x2F

/-- `ExtensionType.extended_master_secret`. -/
def extTypeEMS : Nat := 23

/-- `ExtensionType.supported_groups`. -/
def extTypeSupportedGroups : Nat := 10

/-- `ExtensionType.signature_algorithms`. -/
def extTypeSigAlgs : Nat := 13

/-- `ExtensionType.signature_algorithms_cert`. -/
def extTypeSigAlgsCert : Nat := 50

/-- `ExtensionType.renegotiation_info`. -/
def extTypeRenegoInfo : Nat := 0xff01

/-- Parameters of a `ClientHelloGenerator(...)` call: the cipher list, the
`version=(3, 3)` pair, and the extension set passed as `extensions=...`
(`none` for `extensions=None`; extension entries identified by their
`ExtensionType` key, the extension payloads being irrelevant to every claim
checked here). -/
structure HelloSpec where
  ciphers : List Nat
  version : Nat × Nat
  extensions : Option (List Nat)
  deriving DecidableEq

/-- The node kinds the script instantiates. -/
inductive NodeKind where
  | connect (host : String) (port : Nat)
  | clientHello (spec : HelloSpec)
  | fuzzedClientHello (spec : HelloSpec) (xors subs : List (Nat × Nat))
  | clientKeyExchange
  | changeCipherSpec
  | finishedGen
  | appDataGen (data : String)
  | alertGen (lvl : AlertLevel) (desc : AlertDesc)
  | expectServerHello (exts : List Nat)
  | expectCertificate
  | expectServerKeyExchange
  | expectServerHelloDone
  | expectChangeCipherSpec
  | expectFinished
  | expectAppData
  | expectAlert (lvl : Option AlertLevel) (desc : Option AlertDesc)
  | expectClose
  deriving DecidableEq

/-- A conversation node: kind, ordered children, optional `next_sibling`. -/
inductive TreeNode where
  | node (kind : NodeKind) (children : List TreeNode) (sibling : Option TreeNode)

/-- The kind stored at the root of a node. -/
def TreeNode.kind : TreeNode → NodeKind
  | .node k _ _ => k

/-- Build the linear conversation produced by the script's repeated
`node = node.add_child(...)` calls: each kind in `rest` becomes the single
child of the node before it, and `sib`, when present, becomes the
`next_sibling` of the last node (the script's `node.next_sibling = ...`). -/
def chain (k : NodeKind) (rest : List NodeKind) (sib : Option TreeNode) :
    TreeNode :=
  match rest with
  | [] => .node k [] sib
  | k' :: rest' => .node k [chain k' rest' sib] none

/-! ## The scenario population (script lines 121–353) -/

/-- The `ext` dict keys in insertion order (lines 125–148): the
extended-master-secret entry when `ems`, then the three dhe extensions. -/
def extBase (dhe ems : Bool) : List Nat :=
  (if ems then [extTypeEMS] else []) ++
    (if dhe then [extTypeSupportedGroups, extTypeSigAlgs, extTypeSigAlgsCert]
     else [])

/-- `ext` after line 151: the dict when non-empty, `None` otherwise
(`if not ext: ext = None`). -/
def extOpt (dhe ems : Bool) : Option (List Nat) :=
  if extBase dhe ems = [] then none else some (extBase dhe ems)

/-- `ext_renego_info` (lines 149, 152): a copy of `ext` with
`renegotiation_info` appended. -/
def extRenego (dhe ems : Bool) : List Nat :=
  extBase dhe ems ++ [extTypeRenegoInfo]

/-- `srv_ext` (lines 156–158 and 182–184). -/
def srvExt (ems : Bool) : List Nat :=
  [extTypeRenegoInfo] ++ (if ems then [extTypeEMS] else [])

/-- The `ClientHelloGenerator(ciphers + [SCSV], version=(3, 3),
extensions=ext)` calls. -/
def helloNoExt (ciphers : List Nat) (dhe ems : Bool) : HelloSpec :=
  ⟨ciphers ++ [scsv], (3, 3), extOpt dhe ems⟩

/-- The `ClientHelloGenerator(ciphers, version=(3, 3),
extensions=ext_renego_info)` calls. -/
def helloWExt (ciphers : List Nat) (dhe ems : Bool) : HelloSpec :=
  ⟨ciphers, (3, 3), some (extRenego dhe ems)⟩

/-- The full-handshake tail shared by the two sanity conversations
(lines 160–175 and 186–201). -/
def sanityTail (dhe : Bool) : List NodeKind :=
  [.expectCertificate] ++
    (if dhe then [.expectServerKeyExchange] else []) ++
    [.expectServerHelloDone, .clientKeyExchange, .changeCipherSpec,
     .finishedGen, .expectChangeCipherSpec, .expectFinished,
     .appDataGen "GET / HTTP/1.0\n\n", .expectAppData,
     .alertGen .warning .close_notify, .expectAlert none none]

/-- `conversations["sanity"]` (lines 123–176). -/
def sanityConv (host : String) (port : Nat) (ciphers : List Nat)
    (dhe ems : Bool) : TreeNode :=
  chain (.connect host port)
    ([.clientHello (helloNoExt ciphers dhe ems),
      .expectServerHello (srvExt ems)] ++ sanityTail dhe)
    (some (.node .expectClose [] none))

/-- `conversations["sanity w/ext"]` (lines 178–202). -/
def sanityWExtConv (host : String) (port : Nat) (ciphers : List Nat)
    (dhe ems : Bool) : TreeNode :=
  chain (.connect host port)
    ([.clientHello (helloWExt ciphers dhe ems),
      .expectServerHello (srvExt ems)] ++ sanityTail dhe)
    (some (.node .expectClose [] none))

/-- The `Connect → fuzz_message(hello) → ExpectAlert(...) → ExpectClose`
shape shared by every mutated conversation. -/
def fuzzConv (host : String) (port : Nat) (spec : HelloSpec)
    (xors subs : List (Nat × Nat)) (lvl : Option AlertLevel)
    (desc : Option AlertDesc) : TreeNode :=
  chain (.connect host port)
    [.fuzzedClientHello spec xors subs, .expectAlert lvl desc, .expectClose]
    none

/-- Conversation names.  The script keys `conversations` by strings produced
by fixed `"...".format(v)` templates, one template per sweep; the templates
render pairwise-distinct strings from distinct constructor/value pairs (each
has a distinct literal prelude, and the decimal rendering of the value is
injective), so the names are modelled structurally, with `ConvName.render`
recording the exact template. -/
inductive ConvName where
  | sanity
  | sanityWExt
  | clientHelloType (v : Nat)
  | sessionIdLen (v : Nat)
  | sessionIdLenWExt (v : Nat)
  | cipherSuitesLen (v : Nat)
  | cipherSuitesLenWExt (v : Nat)
  | compressionLen (v : Nat)
  | compressionLenWExt (v : Nat)
  | extensionsLen (v : Nat)
  deriving DecidableEq

/-- The exact name template of each conversation family. -/
def ConvName.render : ConvName → String
  | .sanity => "sanity"
  | .sanityWExt => "sanity w/ext"
  | .clientHelloType v => "Client Hello type fuzz to " ++ toString v
  | .sessionIdLen v => "session ID len fuzz to " ++ toString v
  | .sessionIdLenWExt v => "session ID len fuzz to " ++ toString v ++ " w/ext"
  | .cipherSuitesLen v => "cipher suites len fuzz to " ++ toString v
  | .cipherSuitesLenWExt v =>
      "cipher suites len fuzz to " ++ toString v ++ " w/ext"
  | .compressionLen v => "compression methods len fuzz to " ++ toString v
  | .compressionLenWExt v =>
      "compression methods len fuzz to " ++ toString v ++ " w/ext"
  | .extensionsLen v => "extensions len fuzz to " ++ toString v

/-- `range(1, 0x100)`. -/
def rng255 : List Nat := List.range' 1 255

/-- `range(0, 0x100)`. -/
def rng256 : List Nat := List.range 256

/-- The high-byte sweep values `(1, 2, 4, 8, 16, 128, 254, 255)`
(lines 256 and 286). -/
def hiBytes : List Nat := [1, 2, 4, 8, 16, 128, 254, 255]

/-- The high-byte sweep values `(1, 2, 4, 8, 16, 254, 255)` (line 343). -/
def hiBytesNoExt : List Nat := [1, 2, 4, 8, 16, 254, 255]

/-- The skip conditions of the `cipher suites len fuzz ... w/ext` sweep
(lines 271–274): `dhe and not ems and i == 56`, `dhe and ems and i == 60`. -/
def csSkip (dhe ems : Bool) (i : Nat) : Bool :=
  (dhe && !ems && i == 56) || (dhe && ems && i == 60)

/-- The skip conditions of the `compression methods len fuzz ... w/ext`
sweep (lines 313–320), keyed on `1 ^ i`. -/
def cmSkip (dhe ems : Bool) (i : Nat) : Bool :=
  (!dhe && !ems && (1 ^^^ i) == 8) || (dhe && !ems && (1 ^^^ i) == 62) ||
    (dhe && ems && (1 ^^^ i) == 66) || (!dhe && ems && (1 ^^^ i) == 12)

/-- Lines 205–215: `Client Hello type fuzz to {1 ^ i}`, `xors={0: i}`. -/
def typeFuzzConvs (host : String) (port : Nat) (ciphers : List Nat)
    (dhe ems : Bool) : List (ConvName × TreeNode) :=
  rng255.map fun i =>
    (.clientHelloType (1 ^^^ i),
     fuzzConv host port (helloNoExt ciphers dhe ems) [(0, i)] [] none none)

/-- Lines 218–229: `session ID len fuzz to {i}`, `substitutions={38: i}`,
`ExpectAlert(fatal, decode_error)` (family generated only when `ext` is
`None`). -/
def sessionIdConvs (host : String) (port : Nat) (ciphers : List Nat)
    (dhe ems : Bool) : List (ConvName × TreeNode) :=
  rng255.map fun i =>
    (.sessionIdLen i,
     fuzzConv host port (helloNoExt ciphers dhe ems) [] [(38, i)]
       (some .fatal) (some .decode_error))

/-- Lines 231–239: `session ID len fuzz to {i} w/ext`,
`substitutions={38: i}`, bare `ExpectAlert()`. -/
def sessionIdWExtConvs (host : String) (port : Nat) (ciphers : List Nat)
    (dhe ems : Bool) : List (ConvName × TreeNode) :=
  rng255.map fun i =>
    (.sessionIdLenWExt i,
     fuzzConv host port (helloWExt ciphers dhe ems) [] [(38, i)] none none)

/-- Lines 243–254: `cipher suites len fuzz to {4 ^ i}`, `xors={40: i}`
(family generated only when `ext` is `None`). -/
def cipherLenConvs (host : String) (port : Nat) (ciphers : List Nat)
    (dhe ems : Bool) : List (ConvName × TreeNode) :=
  rng255.map fun i =>
    (.cipherSuitesLen (4 ^^^ i),
     fuzzConv host port (helloNoExt ciphers dhe ems) [(40, i)] []
       (some .fatal) (some .decode_error))

/-- Lines 256–267: `cipher suites len fuzz to {(i<<8) + j}`,
`substitutions={39: i, 40: j}` (family generated only when `ext` is
`None`). -/
def cipherLen2Convs (host : String) (port : Nat) (ciphers : List Nat)
    (dhe ems : Bool) : List (ConvName × TreeNode) :=
  hiBytes.flatMap fun i =>
    rng256.map fun j =>
      (.cipherSuitesLen ((i <<< 8) + j),
       fuzzConv host port (helloNoExt ciphers dhe ems) []
         [(39, i), (40, j)] (some .fatal) (some .decode_error))

/-- Lines 269–284: `cipher suites len fuzz to {4 ^ i} w/ext`,
`xors={40: i}`, `ExpectAlert(level=fatal)`; values satisfying `csSkip` are
skipped because they coincidentally create valid extension-less hellos. -/
def cipherLenWExtConvs (host : String) (port : Nat) (ciphers : List Nat)
    (dhe ems : Bool) : List (ConvName × TreeNode) :=
  rng255.filterMap fun i =>
    if csSkip dhe ems i then none
    else some
      (.cipherSuitesLenWExt (4 ^^^ i),
       fuzzConv host port (helloWExt ciphers dhe ems) [(40, i)] []
         (some .fatal) none)

/-- Lines 286–296: `cipher suites len fuzz to {(i<<8) + j} w/ext`,
`substitutions={39: i, 40: j}`. -/
def cipherLenWExt2Convs (host : String) (port : Nat) (ciphers : List Nat)
    (dhe ems : Bool) : List (ConvName × TreeNode) :=
  hiBytes.flatMap fun i =>
    rng256.map fun j =>
      (.cipherSuitesLenWExt ((i <<< 8) + j),
       fuzzConv host port (helloWExt ciphers dhe ems) []
         [(39, i), (40, j)] (some .fatal) (some .decode_error))

/-- Lines 299–310: `compression methods len fuzz to {1 ^ i}`,
`xors={45: i}` (family generated only when `ext` is `None`). -/
def compLenConvs (host : String) (port : Nat) (ciphers : List Nat)
    (dhe ems : Bool) : List (ConvName × TreeNode) :=
  rng255.map fun i =>
    (.compressionLen (1 ^^^ i),
     fuzzConv host port (helloNoExt ciphers dhe ems) [(45, i)] []
       (some .fatal) (some .decode_error))

/-- Lines 312–329: `compression methods len fuzz to {1 ^ i} w/ext`,
`xors={43: i}`; values satisfying `cmSkip` are skipped. -/
def compLenWExtConvs (host : String) (port : Nat) (ciphers : List Nat)
    (dhe ems : Bool) : List (ConvName × TreeNode) :=
  rng255.filterMap fun i =>
    if cmSkip dhe ems i then none
    else some
      (.compressionLenWExt (1 ^^^ i),
       fuzzConv host port (helloWExt ciphers dhe ems) [(43, i)] []
         (some .fatal) (some .decode_error))

/-- Lines 332–341: `extensions len fuzz to {5 ^ i}`, `xors={46: i}`. -/
def extLenConvs (host : String) (port : Nat) (ciphers : List Nat)
    (dhe ems : Bool) : List (ConvName × TreeNode) :=
  rng255.map fun i =>
    (.extensionsLen (5 ^^^ i),
     fuzzConv host port (helloWExt ciphers dhe ems) [(46, i)] []
       (some .fatal) (some .decode_error))

/-- Lines 343–353: `extensions len fuzz to {(i<<8) + j}`,
`substitutions={45: i, 46: j}`. -/
def extLen2Convs (host : String) (port : Nat) (ciphers : List Nat)
    (dhe ems : Bool) : List (ConvName × TreeNode) :=
  hiBytesNoExt.flatMap fun i =>
    rng256.map fun j =>
      (.extensionsLen ((i <<< 8) + j),
       fuzzConv host port (helloWExt ciphers dhe ems) []
         [(45, i), (46, j)] (some .fatal) (some .decode_error))

/-- All `conversations[...] = ...` assignments of the script, in program
order (lines 121–353).  The `if not ext:` guards appear as `isNone` tests. -/
def convList (host : String) (port : Nat) (ciphers : List Nat)
    (dhe ems : Bool) : List (ConvName × TreeNode) :=
  [(.sanity, sanityConv host port ciphers dhe ems),
   (.sanityWExt, sanityWExtConv host port ciphers dhe ems)] ++
  typeFuzzConvs host port ciphers dhe ems ++
  (if (extOpt dhe ems).isNone then sessionIdConvs host port ciphers dhe ems
   else []) ++
  sessionIdWExtConvs host port ciphers dhe ems ++
  (if (extOpt dhe ems).isNone then
    cipherLenConvs host port ciphers dhe ems ++
      cipherLen2Convs host port ciphers dhe ems
   else []) ++
  cipherLenWExtConvs host port ciphers dhe ems ++
  cipherLenWExt2Convs host port ciphers dhe ems ++
  (if (extOpt dhe ems).isNone then compLenConvs host port ciphers dhe ems
   else []) ++
  compLenWExtConvs host port ciphers dhe ems ++
  extLenConvs host port ciphers dhe ems ++
  extLen2Convs host port ciphers dhe ems

/-- The scenario population: the Python dict `conversations`. -/
def conversations (host : String) (port : Nat) (ciphers : List Nat)
    (dhe ems : Bool) : List (ConvName × TreeNode) :=
  buildDict (convList host port ciphers dhe ems)

/-! ## Terminal-matcher invariant -/

/-- Whether a node is an `ExpectClose()`. -/
def isCloseNode : TreeNode → Bool
  | .node .expectClose _ _ => true
  | _ => false

mutual

/-- Every path from this node to a leaf (following children) ends in a
terminal matcher: an `ExpectClose` leaf, or an `ExpectAlert` leaf whose
`next_sibling` is an `ExpectClose`. -/
def endsTerminal : TreeNode → Bool
  | .node .expectClose [] _ => true
  | .node (.expectAlert _ _) [] (some s) => isCloseNode s
  | .node _ [] _ => false
  | .node _ (c :: cs) _ => endsTerminal c && endsTerminalAll cs

/-- `endsTerminal` on every node of a list. -/
def endsTerminalAll : List TreeNode → Bool
  | [] => true
  | t :: ts => endsTerminal t && endsTerminalAll ts

end

theorem endsTerminal_fuzzConv (host : String) (port : Nat) (spec : HelloSpec)
    (xors subs : List (Nat × Nat)) (lvl : Option AlertLevel)
    (desc : Option AlertDesc) :
    endsTerminal (fuzzConv host port spec xors subs lvl desc) = true := rfl

theorem endsTerminal_sanityConv (host : String) (port : Nat)
    (ciphers : List Nat) (dhe ems : Bool) :
    endsTerminal (sanityConv host port ciphers dhe ems) = true := by
  cases dhe <;> rfl

theorem endsTerminal_sanityWExtConv (host : String) (port : Nat)
    (ciphers : List Nat) (dhe ems : Bool) :
    endsTerminal (sanityWExtConv host port ciphers dhe ems) = true := by
  cases dhe <;> rfl

/-! ## Runner

Modelled from the spec: the `Runner` (`tlsfuzzer/runner.py`, imported by the
script but not part of this tree) walks the conversation tree against the
live connection (§4.3): a generator node transmits its message and advances
to its first child; a matcher node blocks for the next inbound event,
compares it with the expected shape — unconstrained fields match any value —
and on a match advances to its first child if present, else to its
`next_sibling` if set, else terminates successfully; a mismatch or an
exhausted connection aborts the conversation as a failure.  The inbound side
of the connection is modelled as the list of events the target sends. -/

/-- An inbound protocol event from the target. -/
inductive Event where
  | serverHello
  | certificate
  | serverKeyExchange
  | serverHelloDone
  | changeCipherSpec
  | finished
  | appData
  | alert (lvl : AlertLevel) (desc : AlertDesc)
  | close
  deriving DecidableEq

/-- Whether a node kind is a generator (sends) rather than a matcher
(receives). -/
def NodeKind.isGenerator : NodeKind → Bool
  | .connect _ _ => true
  | .clientHello _ => true
  | .fuzzedClientHello _ _ _ => true
  | .clientKeyExchange => true
  | .changeCipherSpec => true
  | .finishedGen => true
  | .appDataGen _ => true
  | .alertGen _ _ => true
  | _ => false

/-- Modelled from the spec: a matcher's field constraints are an incomplete
specification — an omitted alert level or description matches any value
(§4.2). -/
def nodeMatches : NodeKind → Event → Bool
  | .expectServerHello _, .serverHello => true
  | .expectCertificate, .certificate => true
  | .expectServerKeyExchange, .serverKeyExchange => true
  | .expectServerHelloDone, .serverHelloDone => true
  | .expectChangeCipherSpec, .changeCipherSpec => true
  | .expectFinished, .finished => true
  | .expectAppData, .appData => true
  | .expectAlert lvlC descC, .alert l d =>
      (match lvlC with | none => true | some lv => lv = l) &&
        (match descC with | none => true | some dv => dv = d)
  | .expectClose, .close => true
  | _, _ => false

/-- Modelled from the spec: one Runner walk of a conversation tree against
the inbound events `evs`; `true` when the walk reaches a terminal success,
`false` when a matcher fails or the connection delivers nothing more. -/
def runConv (t : TreeNode) (evs : List Event) : Bool :=
  match t with
  | .node k [] sib =>
    if k.isGenerator then true
    else
      match evs with
      | [] => false
      | e :: rest =>
        if nodeMatches k e then
          match sib with
          | some s => runConv s rest
          | none => true
        else false
  | .node k (c :: _) _ =>
    if k.isGenerator then runConv c evs
    else
      match evs with
      | [] => false
      | e :: rest => if nodeMatches k e then runConv c rest else false

/-! ## Test selection and sampling (script lines 356–376)

`random.sample(regular_tests, k)` draws `k` elements at pairwise-distinct
positions of `regular_tests`.  The randomness is modelled by quantifying over
the chosen position list `idxs`; any duplicate-free, in-bounds list of
length `k` is a possible draw. -/

/-- Placeholder tree for the (unreachable in this program) case that the
`'sanity'` key is missing when line 367 reads `conversations['sanity']`. -/
def stubTree : TreeNode := .node .expectClose [] none

/-- Line 362–363: `if not num_limit: num_limit = len(conversations)`. -/
def resolvedLimit (convs : List (ConvName × TreeNode)) (numLimit : Nat) :
    Nat :=
  if numLimit = 0 then convs.length else numLimit

/-- Lines 369–370: with an explicit selection set the limit is clamped to
`len(run_only)` (a Python set, hence deduplicated). -/
def effectiveLimit (convs : List (ConvName × TreeNode))
    (runOnly : Option (List ConvName)) (numLimit : Nat) : Nat :=
  match runOnly with
  | some ro =>
    if resolvedLimit convs numLimit > ro.dedup.length then ro.dedup.length
    else resolvedLimit convs numLimit
  | none => resolvedLimit convs numLimit

/-- Line 367: `sanity_tests = [('sanity', conversations['sanity'])]`. -/
def sanityTests (convs : List (ConvName × TreeNode)) :
    List (ConvName × TreeNode) :=
  [(.sanity, (dlookup ConvName.sanity convs).getD stubTree)]

/-- Lines 368–374: the eligible conversations — the named ones when a
selection set was given, otherwise everything except `'sanity'` and the
excluded names. -/
def regularTests (convs : List (ConvName × TreeNode))
    (runOnly : Option (List ConvName)) (runExclude : List ConvName) :
    List (ConvName × TreeNode) :=
  match runOnly with
  | some ro => convs.filter fun kv => kv.1 ∈ ro
  | none =>
    convs.filter fun kv => kv.1 ≠ ConvName.sanity ∧ kv.1 ∉ runExclude

/-- Line 375: `sample(regular_tests, min(num_limit, len(regular_tests)))`,
with the random draw `idxs` made explicit. -/
def sampledTests (regular : List (ConvName × TreeNode)) (idxs : List Nat) :
    List (ConvName × TreeNode) :=
  idxs.filterMap fun i => regular[i]?

/-- Line 376: `ordered_tests = chain(sanity_tests, sampled_tests,
sanity_tests)`. -/
def orderedTests (sanity sampled : List (ConvName × TreeNode)) :
    List (ConvName × TreeNode) :=
  sanity ++ sampled ++ sanity

/-! ## The execution loop (script lines 356–414)

One loop iteration runs a conversation and classifies the result.  Whether
`runner.run()` raised, and the raised exception's string form, depend on the
live target; they are modelled by a behaviour oracle `beh` mapping the index
of the execution to `none` (no exception) or `some e` (an exception whose
`str(...)` is `e`).  The loop is generic in the name type: the script keys
both the conversations and the expected-failure registry by strings; the
structured names used here render to those strings via `ConvName.render`. -/

/-- One outcome of an executed conversation. -/
inductive Outcome where
  | pass
  | fail
  | xfail
  | xpass
  deriving DecidableEq

/-- The lines the loop body prints (lines 379, 389–390, 397, 403–404, 407,
411), with the per-conversation progress marker carrying the name. -/
inductive LogEntry (α : Type) where
  | progress (name : α)
  | errorWhileProcessing (exc : String)
  | xpassUnexpected
  | expectedErrMsg (sub : String)
  | okExpectedFailure
  | ok
  deriving DecidableEq

/-- The loop's accumulator state (lines 356–361). -/
structure RunState (α : Type) where
  good : Nat := 0
  bad : Nat := 0
  xfail : Nat := 0
  xpass : Nat := 0
  failed : List α := []
  xpassed : List α := []
  log : List (LogEntry α) := []

/-- Classification of one executed conversation (lines 393–414):
`reg` is the expected-failure registry (name → optional required substring),
`exc` the raised exception's string form if any. -/
def outcomeOf {α : Type} [DecidableEq α] (reg : List (α × Option String))
    (name : α) (exc : Option String) : Outcome :=
  match dlookup name reg with
  | some sub =>
    match exc with
    | none => .xpass
    | some e =>
      match sub with
      | some s => if strContains e s then .xfail else .fail
      | none => .xfail
  | none =>
    match exc with
    | none => .pass
    | some _ => .fail

/-- One iteration of the loop body (lines 378–414): print the progress
marker, run the conversation (`beh` gives `exc`), then classify. -/
def stepRun {α : Type} [DecidableEq α] (reg : List (α × Option String))
    (st : RunState α) (name : α) (exc : Option String) : RunState α :=
  let st :=
    { st with
      log := st.log ++ [LogEntry.progress name] ++
        (match exc with
         | some e => [LogEntry.errorWhileProcessing e]
         | none => []) }
  match dlookup name reg with
  | some sub =>
    match exc with
    | none =>
      { st with
        xpass := st.xpass + 1
        xpassed := st.xpassed ++ [name]
        log := st.log ++ [LogEntry.xpassUnexpected] }
    | some e =>
      match sub with
      | some s =>
        if strContains e s then
          { st with
            xfail := st.xfail + 1
            log := st.log ++ [LogEntry.okExpectedFailure] }
        else
          { st with
            bad := st.bad + 1
            failed := st.failed ++ [name]
            log := st.log ++ [LogEntry.expectedErrMsg s] }
      | none =>
        { st with
          xfail := st.xfail + 1
          log := st.log ++ [LogEntry.okExpectedFailure] }
  | none =>
    match exc with
    | none => { st with good := st.good + 1, log := st.log ++ [LogEntry.ok] }
    | some _ =>
      { st with bad := st.bad + 1, failed := st.failed ++ [name] }

/-- The loop from position `i` of the ordered test list onward. -/
def runFrom {α : Type} [DecidableEq α] (reg : List (α × Option String))
    (beh : Nat → Option String) (i : Nat) (st : RunState α) :
    List (α × TreeNode) → RunState α
  | [] => st
  | (name, _t) :: rest =>
    runFrom reg beh (i + 1) (stepRun reg st name (beh i)) rest

/-- The whole execution loop (lines 378–414). -/
def runAll {α : Type} [DecidableEq α] (reg : List (α × Option String))
    (tests : List (α × TreeNode)) (beh : Nat → Option String) : RunState α :=
  runFrom reg beh 0 {} tests

/-- `good + bad + xfail + xpass`: the number of classified executions. -/
def countersSum {α : Type} (st : RunState α) : Nat :=
  st.good + st.bad + st.xfail + st.xpass

/-- The number printed on the `TOTAL:` line
(line 420: `len(sampled_tests) + 2*len(sanity_tests)`). -/
def totalLine (sanity sampled : List (ConvName × TreeNode)) : Nat :=
  sampled.length + 2 * sanity.length

/-- Lines 434–435: `if bad or xpass: sys.exit(1)` — and implicit exit 0
otherwise. -/
def exitCode {α : Type} (st : RunState α) : Nat :=
  if st.bad ≠ 0 || st.xpass ≠ 0 then 1 else 0

section RunLoop

variable {α : Type} [DecidableEq α]

/-- Each loop iteration bumps exactly the counter (and name list) of the
outcome `outcomeOf` assigns to it. -/
theorem stepRun_fields (reg : List (α × Option String)) (st : RunState α)
    (name : α) (exc : Option String) :
    (stepRun reg st name exc).good =
      st.good + (if outcomeOf reg name exc = .pass then 1 else 0) ∧
    (stepRun reg st name exc).bad =
      st.bad + (if outcomeOf reg name exc = .fail then 1 else 0) ∧
    (stepRun reg st name exc).xfail =
      st.xfail + (if outcomeOf reg name exc = .xfail then 1 else 0) ∧
    (stepRun reg st name exc).xpass =
      st.xpass + (if outcomeOf reg name exc = .xpass then 1 else 0) ∧
    (stepRun reg st name exc).failed =
      st.failed ++ (if outcomeOf reg name exc = .fail then [name] else []) ∧
    (stepRun reg st name exc).xpassed =
      st.xpassed ++ (if outcomeOf reg name exc = .xpass then [name] else []) := by
  unfold stepRun outcomeOf
  rcases hr : dlookup name reg with _ | sub
  · cases exc <;> simp
  · cases exc with
    | none => simp
    | some e =>
      cases sub with
      | none => simp
      | some s => by_cases hc : strContains e s <;> simp [hc]

theorem countersSum_stepRun (reg : List (α × Option String)) (st : RunState α)
    (name : α) (exc : Option String) :
    countersSum (stepRun reg st name exc) = countersSum st + 1 := by
  obtain ⟨hg, hb, hxf, hxp, -, -⟩ := stepRun_fields reg st name exc
  rcases ho : outcomeOf reg name exc <;>
    simp [countersSum, hg, hb, hxf, hxp, ho] <;> omega

theorem countersSum_runFrom (reg : List (α × Option String))
    (beh : Nat → Option String) :
    ∀ (l : List (α × TreeNode)) (i : Nat) (st : RunState α),
    countersSum (runFrom reg beh i st l) = countersSum st + l.length := by
  intro l
  induction l with
  | nil => intro i st; simp [runFrom]
  | cons p rest ih =>
    intro i st
    rcases p with ⟨name, t⟩
    rw [runFrom, ih, countersSum_stepRun]
    simp
    omega

/-- Every executed conversation is classified into exactly one bucket. -/
theorem countersSum_runAll (reg : List (α × Option String))
    (tests : List (α × TreeNode)) (beh : Nat → Option String) :
    countersSum (runAll reg tests beh) = tests.length := by
  rw [runAll, countersSum_runFrom]
  simp [countersSum]

/-- How many executions starting at index `i` get outcome `o`. -/
def countOutcome (reg : List (α × Option String)) (beh : Nat → Option String)
    (o : Outcome) : Nat → List (α × TreeNode) → Nat
  | _, [] => 0
  | i, (name, _t) :: rest =>
    (if outcomeOf reg name (beh i) = o then 1 else 0) +
      countOutcome reg beh o (i + 1) rest

theorem bad_runFrom (reg : List (α × Option String))
    (beh : Nat → Option String) :
    ∀ (l : List (α × TreeNode)) (i : Nat) (st : RunState α),
    (runFrom reg beh i st l).bad = st.bad + countOutcome reg beh .fail i l := by
  intro l
  induction l with
  | nil => intro i st; simp [runFrom, countOutcome]
  | cons p rest ih =>
    intro i st
    rcases p with ⟨name, t⟩
    rw [runFrom, ih, countOutcome]
    obtain ⟨-, hb, -, -, -, -⟩ := stepRun_fields reg st name (beh i)
    rw [hb]
    omega

theorem xpass_runFrom (reg : List (α × Option String))
    (beh : Nat → Option String) :
    ∀ (l : List (α × TreeNode)) (i : Nat) (st : RunState α),
    (runFrom reg beh i st l).xpass =
      st.xpass + countOutcome reg beh .xpass i l := by
  intro l
  induction l with
  | nil => intro i st; simp [runFrom, countOutcome]
  | cons p rest ih =>
    intro i st
    rcases p with ⟨name, t⟩
    rw [runFrom, ih, countOutcome]
    obtain ⟨-, -, -, hxp, -, -⟩ := stepRun_fields reg st name (beh i)
    rw [hxp]
    omega

theorem countOutcome_ne_zero (reg : List (α × Option String))
    (beh : Nat → Option String) (o : Outcome) :
    ∀ (l : List (α × TreeNode)) (i : Nat),
    countOutcome reg beh o i l ≠ 0 ↔
      ∃ j, ∃ h : j < l.length,
        outcomeOf reg (l.get ⟨j, h⟩).1 (beh (i + j)) = o := by
  intro l
  induction l with
  | nil => intro i; simp [countOutcome]
  | cons p rest ih =>
    intro i
    rcases p with ⟨name, t⟩
    rw [countOutcome]
    by_cases h0 : outcomeOf reg name (beh i) = o
    · simp only [if_pos h0]
      constructor
      · intro _
        exact ⟨0, by simp, by simpa using h0⟩
      · intro _
        omega
    · simp only [if_neg h0, Nat.zero_add, ih (i + 1)]
      constructor
      · rintro ⟨j, hj, ho⟩
        refine ⟨j + 1, by simpa using hj, ?_⟩
        simpa [Nat.add_comm, Nat.add_assoc, Nat.add_left_comm] using ho
      · rintro ⟨j, hj, ho⟩
        match j with
        | 0 => exact absurd (by simpa using ho) h0
        | j + 1 =>
          refine ⟨j, by simpa using hj, ?_⟩
          simpa [Nat.add_comm, Nat.add_assoc, Nat.add_left_comm] using ho

/-- The log grows monotonically and each step contributes its progress
marker and, on an exception, the captured trace line. -/
theorem stepRun_log (reg : List (α × Option String)) (st : RunState α)
    (name : α) (exc : Option String) :
    ∃ tail, (stepRun reg st name exc).log = st.log ++ tail ∧
      LogEntry.progress name ∈ tail ∧
      (∀ e, exc = some e → LogEntry.errorWhileProcessing e ∈ tail) := by
  rcases hr : dlookup name reg with _ | sub
  · cases exc with
    | none =>
      refine ⟨[.progress name, .ok], ?_, by simp, by simp⟩
      simp [stepRun, hr]
    | some e =>
      refine ⟨[.progress name, .errorWhileProcessing e], ?_, by simp, by simp⟩
      simp [stepRun, hr]
  · cases exc with
    | none =>
      refine ⟨[.progress name, .xpassUnexpected], ?_, by simp, by simp⟩
      simp [stepRun, hr]
    | some e =>
      cases sub with
      | none =>
        refine ⟨[.progress name, .errorWhileProcessing e,
          .okExpectedFailure], ?_, by simp, by simp⟩
        simp [stepRun, hr]
      | some s =>
        by_cases hc : strContains e s
        · refine ⟨[.progress name, .errorWhileProcessing e,
            .okExpectedFailure], ?_, by simp, by simp⟩
          simp [stepRun, hr, hc]
        · refine ⟨[.progress name, .errorWhileProcessing e,
            .expectedErrMsg s], ?_, by simp, by simp⟩
          simp [stepRun, hr, hc]

theorem stepRun_failed_mono (reg : List (α × Option String)) (st : RunState α)
    (name : α) (exc : Option String) :
    ∃ tail, (stepRun reg st name exc).failed = st.failed ++ tail := by
  obtain ⟨-, -, -, -, hf, -⟩ := stepRun_fields reg st name exc
  exact ⟨_, hf⟩

theorem runFrom_log_mono (reg : List (α × Option String))
    (beh : Nat → Option String) :
    ∀ (l : List (α × TreeNode)) (i : Nat) (st : RunState α),
    ∃ tail, (runFrom reg beh i st l).log = st.log ++ tail := by
  intro l
  induction l with
  | nil => intro i st; exact ⟨[], by simp [runFrom]⟩
  | cons p rest ih =>
    intro i st
    rcases p with ⟨name, t⟩
    rw [runFrom]
    obtain ⟨t1, h1⟩ := ih (i + 1) (stepRun reg st name (beh i))
    obtain ⟨t0, h0, -, -⟩ := stepRun_log reg st name (beh i)
    exact ⟨t0 ++ t1, by rw [h1, h0, List.append_assoc]⟩

theorem runFrom_failed_mono (reg : List (α × Option String))
    (beh : Nat → Option String) :
    ∀ (l : List (α × TreeNode)) (i : Nat) (st : RunState α),
    ∃ tail, (runFrom reg beh i st l).failed = st.failed ++ tail := by
  intro l
  induction l with
  | nil => intro i st; exact ⟨[], by simp [runFrom]⟩
  | cons p rest ih =>
    intro i st
    rcases p with ⟨name, t⟩
    rw [runFrom]
    obtain ⟨t1, h1⟩ := ih (i + 1) (stepRun reg st name (beh i))
    obtain ⟨t0, h0⟩ := stepRun_failed_mono reg st name (beh i)
    exact ⟨t0 ++ t1, by rw [h1, h0, List.append_assoc]⟩

theorem runFrom_progress_mem (reg : List (α × Option String))
    (beh : Nat → Option String) :
    ∀ (l : List (α × TreeNode)) (i : Nat) (st : RunState α)
      (j : Nat) (h : j < l.length),
    LogEntry.progress (l.get ⟨j, h⟩).1 ∈ (runFrom reg beh i st l).log ∧
    (∀ e, beh (i + j) = some e →
      LogEntry.errorWhileProcessing e ∈ (runFrom reg beh i st l).log) := by
  intro l
  induction l with
  | nil => intro i st j h; simp at h
  | cons p rest ih =>
    intro i st j h
    rcases p with ⟨name, t⟩
    rw [runFrom]
    match j with
    | 0 =>
      obtain ⟨t1, h1⟩ :=
        runFrom_log_mono reg beh rest (i + 1) (stepRun reg st name (beh i))
      obtain ⟨t0, h0, hp, he⟩ := stepRun_log reg st name (beh i)
      constructor
      · rw [h1, h0]
        simp only [List.get]
        exact List.mem_append_left _ (List.mem_append_right _ hp)
      · intro e hbe
        rw [h1, h0]
        exact List.mem_append_left _
          (List.mem_append_right _ (he e (by simpa using hbe)))
    | j + 1 =>
      have := ih (i + 1) (stepRun reg st name (beh i)) j (by simpa using h)
      constructor
      · exact this.1
      · intro e hbe
        refine this.2 e ?_
        rw [show i + 1 + j = i + (j + 1) by omega]
        exact hbe

theorem runFrom_failed_mem (reg : List (α × Option String))
    (beh : Nat → Option String) :
    ∀ (l : List (α × TreeNode)) (i : Nat) (st : RunState α)
      (j : Nat) (h : j < l.length),
    outcomeOf reg (l.get ⟨j, h⟩).1 (beh (i + j)) = .fail →
    (l.get ⟨j, h⟩).1 ∈ (runFrom reg beh i st l).failed := by
  intro l
  induction l with
  | nil => intro i st j h; simp at h
  | cons p rest ih =>
    intro i st j h hout
    rcases p with ⟨name, t⟩
    rw [runFrom]
    match j with
    | 0 =>
      obtain ⟨t1, h1⟩ :=
        runFrom_failed_mono reg beh rest (i + 1) (stepRun reg st name (beh i))
      obtain ⟨-, -, -, -, hf, -⟩ := stepRun_fields reg st name (beh i)
      rw [h1, hf]
      have hout0 : outcomeOf reg name (beh i) = .fail := by simpa using hout
      simp [hout0]
    | j + 1 =>
      have hout' : outcomeOf reg (rest.get ⟨j, by simpa using h⟩).1
          (beh (i + 1 + j)) = .fail := by
        rw [show i + 1 + j = i + (j + 1) by omega]
        simpa using hout
      exact ih (i + 1) (stepRun reg st name (beh i)) j (by simpa using h) hout'

end RunLoop

/-! ## Claim theorems: the execution loop -/

/-- **C1.** For every executed Conversation whose name is in the
expected-failure registry: no exception ⟹ XPASS (counted in `xpass`, name
appended to `xpassed`); exception whose string form does not contain the
required substring ⟹ FAIL (counted in `bad`, name appended to `failed`);
otherwise (no substring required, or the substring present) ⟹ XFAIL with the
`OK-expected failure` confirmation printed.  (Script lines 393–407.) -/
theorem expected_failure_classification {α : Type} [DecidableEq α]
    (reg : List (α × Option String)) (st : RunState α) (name : α)
    (sub exc : Option String)
    (hreg : dlookup name reg = some sub) :
    (exc = none →
      (stepRun reg st name exc).xpass = st.xpass + 1 ∧
      (stepRun reg st name exc).xpassed = st.xpassed ++ [name]) ∧
    (∀ e s, exc = some e → sub = some s → strContains e s = false →
      (stepRun reg st name exc).bad = st.bad + 1 ∧
      (stepRun reg st name exc).failed = st.failed ++ [name]) ∧
    (∀ e, exc = some e →
      (sub = none ∨ ∃ s, sub = some s ∧ strContains e s = true) →
      (stepRun reg st name exc).xfail = st.xfail + 1 ∧
      LogEntry.okExpectedFailure ∈ (stepRun reg st name exc).log) := by
  refine ⟨?_, ?_, ?_⟩
  · rintro rfl
    simp [stepRun, hreg]
  · rintro e s rfl rfl hc
    constructor <;> simp [stepRun, hreg, hc]
  · rintro e rfl hor
    rcases hor with rfl | ⟨s, rfl, hc⟩ <;>
      constructor <;> simp [stepRun, hreg] <;> simp [hc]

/-- Witness for C1 at a concrete registry, conversation and exception. -/
theorem expected_failure_classification_witness :
    (((some "boom at 3" : Option String) = none →
      (stepRun [("n", some "boom")] ({} : RunState String) "n"
        (some "boom at 3")).xpass = ({} : RunState String).xpass + 1 ∧
      (stepRun [("n", some "boom")] ({} : RunState String) "n"
        (some "boom at 3")).xpassed =
        ({} : RunState String).xpassed ++ ["n"]) ∧
    (∀ e s, (some "boom at 3" : Option String) = some e →
      (some "boom" : Option String) = some s → strContains e s = false →
      (stepRun [("n", some "boom")] ({} : RunState String) "n"
        (some "boom at 3")).bad = ({} : RunState String).bad + 1 ∧
      (stepRun [("n", some "boom")] ({} : RunState String) "n"
        (some "boom at 3")).failed =
        ({} : RunState String).failed ++ ["n"]) ∧
    (∀ e, (some "boom at 3" : Option String) = some e →
      ((some "boom" : Option String) = none ∨
        ∃ s, (some "boom" : Option String) = some s ∧
          strContains e s = true) →
      (stepRun [("n", some "boom")] ({} : RunState String) "n"
        (some "boom at 3")).xfail = ({} : RunState String).xfail + 1 ∧
      LogEntry.okExpectedFailure ∈
        (stepRun [("n", some "boom")] ({} : RunState String) "n"
          (some "boom at 3")).log)) :=
  expected_failure_classification [("n", some "boom")] {} "n" (some "boom")
    (some "boom at 3") (by decide)

/-- **C2.** The harness exits with status 1 iff some executed Conversation
was classified FAIL or XPASS, and with status 0 iff every executed
Conversation was classified PASS or XFAIL.  (Script lines 434–435.) -/
theorem exit_status_iff {α : Type} [DecidableEq α]
    (reg : List (α × Option String)) (tests : List (α × TreeNode))
    (beh : Nat → Option String) :
    (exitCode (runAll reg tests beh) = 1 ↔
      ∃ j, ∃ h : j < tests.length,
        outcomeOf reg (tests.get ⟨j, h⟩).1 (beh j) = Outcome.fail ∨
        outcomeOf reg (tests.get ⟨j, h⟩).1 (beh j) = Outcome.xpass) ∧
    (exitCode (runAll reg tests beh) = 0 ↔
      ∀ j, ∀ h : j < tests.length,
        outcomeOf reg (tests.get ⟨j, h⟩).1 (beh j) = Outcome.pass ∨
        outcomeOf reg (tests.get ⟨j, h⟩).1 (beh j) = Outcome.xfail) := by
  have hbad : (runAll reg tests beh).bad = countOutcome reg beh .fail 0 tests := by
    rw [runAll, bad_runFrom]
    simp
  have hxp : (runAll reg tests beh).xpass =
      countOutcome reg beh .xpass 0 tests := by
    rw [runAll, xpass_runFrom]
    simp
  have hfail := countOutcome_ne_zero reg beh .fail tests 0
  have hxpass := countOutcome_ne_zero reg beh .xpass tests 0
  simp only [Nat.zero_add] at hfail hxpass
  have key : exitCode (runAll reg tests beh) = 1 ↔
      ∃ j, ∃ h : j < tests.length,
        outcomeOf reg (tests.get ⟨j, h⟩).1 (beh j) = Outcome.fail ∨
        outcomeOf reg (tests.get ⟨j, h⟩).1 (beh j) = Outcome.xpass := by
    rw [exitCode]
    constructor
    · intro h1
      have : (runAll reg tests beh).bad ≠ 0 ∨
          (runAll reg tests beh).xpass ≠ 0 := by
        by_contra hc
        push_neg at hc
        simp [hc.1, hc.2] at h1
      rcases this with h | h
      · obtain ⟨j, hj, ho⟩ := hfail.mp (by rwa [hbad] at h)
        exact ⟨j, hj, Or.inl ho⟩
      · obtain ⟨j, hj, ho⟩ := hxpass.mp (by rwa [hxp] at h)
        exact ⟨j, hj, Or.inr ho⟩
    · rintro ⟨j, hj, ho | ho⟩
      · have : (runAll reg tests beh).bad ≠ 0 := by
          rw [hbad]
          exact hfail.mpr ⟨j, hj, ho⟩
        simp [this]
      · have : (runAll reg tests beh).xpass ≠ 0 := by
          rw [hxp]
          exact hxpass.mpr ⟨j, hj, ho⟩
        simp [this]
  refine ⟨key, ?_⟩
  have h01 : exitCode (runAll reg tests beh) = 0 ↔
      ¬ exitCode (runAll reg tests beh) = 1 := by
    rw [exitCode]
    by_cases hb : (runAll reg tests beh).bad ≠ 0 ∨
        (runAll reg tests beh).xpass ≠ 0 <;> simp [hb]
  rw [h01, key]
  push_neg
  constructor
  · intro hall j hj
    have := hall j hj
    rcases ho : outcomeOf reg (tests.get ⟨j, hj⟩).1 (beh j) with _ | _ | _ | _
    · exact Or.inl rfl
    · exact absurd ho this.1
    · exact Or.inr rfl
    · exact absurd ho this.2
  · intro hall j hj
    rcases hall j hj with ho | ho <;> rw [ho] <;> exact ⟨by simp, by simp⟩

/-- **C4.** Every exception raised while running a Conversation is caught at
the loop: every Conversation in the ordered sequence is executed and
classified no matter which runs raise (`countersSum` = length, the progress
marker of every Conversation is printed), the captured exception is printed,
and an unexpected failure is recorded under the Conversation's name in
`failed`.  In particular `beh 0 = some e` — a failing first sanity run —
does not prevent any later execution.  (Script lines 378–414.) -/
theorem failures_caught_per_conversation {α : Type} [DecidableEq α]
    (reg : List (α × Option String)) (tests : List (α × TreeNode))
    (beh : Nat → Option String) :
    countersSum (runAll reg tests beh) = tests.length ∧
    (∀ j, ∀ h : j < tests.length,
      LogEntry.progress (tests.get ⟨j, h⟩).1 ∈ (runAll reg tests beh).log) ∧
    (∀ j, j < tests.length → ∀ e, beh j = some e →
      LogEntry.errorWhileProcessing e ∈ (runAll reg tests beh).log) ∧
    (∀ j, ∀ h : j < tests.length, ∀ e, beh j = some e →
      dlookup (tests.get ⟨j, h⟩).1 reg = none →
      (tests.get ⟨j, h⟩).1 ∈ (runAll reg tests beh).failed) := by
  refine ⟨countersSum_runAll reg tests beh, ?_, ?_, ?_⟩
  · intro j h
    exact (runFrom_progress_mem reg beh tests 0 {} j h).1
  · intro j h e hbe
    exact (runFrom_progress_mem reg beh tests 0 {} j h).2 e
      (by simpa using hbe)
  · intro j h e hbe hreg
    refine runFrom_failed_mem reg beh tests 0 {} j h ?_
    have : beh (0 + j) = some e := by simpa using hbe
    rw [this, outcomeOf, hreg]

/-- Witness for C4: a three-conversation run whose first (sanity) execution
raises, with the second and third still executed and classified. -/
theorem failures_caught_per_conversation_witness :
    countersSum (runAll ([] : List (String × Option String))
      [("sanity", stubTree), ("a", stubTree), ("sanity", stubTree)]
      (fun i => if i = 0 then some "refused" else none)) = 3 ∧
    LogEntry.progress "a" ∈ (runAll ([] : List (String × Option String))
      [("sanity", stubTree), ("a", stubTree), ("sanity", stubTree)]
      (fun i => if i = 0 then some "refused" else none)).log ∧
    LogEntry.errorWhileProcessing "refused" ∈
      (runAll ([] : List (String × Option String))
        [("sanity", stubTree), ("a", stubTree), ("sanity", stubTree)]
        (fun i => if i = 0 then some "refused" else none)).log ∧
    "sanity" ∈ (runAll ([] : List (String × Option String))
      [("sanity", stubTree), ("a", stubTree), ("sanity", stubTree)]
      (fun i => if i = 0 then some "refused" else none)).failed := by
  obtain ⟨hsum, hprog, herr, hfail⟩ := failures_caught_per_conversation
    ([] : List (String × Option String))
    [("sanity", stubTree), ("a", stubTree), ("sanity", stubTree)]
    (fun i => if i = 0 then some "refused" else none)
  exact ⟨hsum, hprog 1 (by decide), herr 0 (by decide) "refused" (by decide),
    hfail 0 (by decide) "refused" (by decide) (by decide)⟩

/-- **C5.** `fuzz_message` leaves every byte outside the mutated offsets
unchanged, XORs the input byte with the given value at an `xors` offset,
and writes exactly the given value at a `substitutions` offset; being a
function of its inputs it is deterministic.  (Modelled from the spec,
§4.1 — `fuzz_message` lives in `tlsfuzzer/messages.py`, outside this
tree.) -/
theorem fuzz_message_pointwise (input : List Nat)
    (xors subs : Nat → Option Nat) (i : Nat) (h : i < input.length) :
    (fuzz_message input xors subs).length = input.length ∧
    (xors i = none → subs i = none →
      (fuzz_message input xors subs)[i]? = input[i]?) ∧
    (∀ v, xors i = some v → subs i = none →
      (fuzz_message input xors subs)[i]? = some (input.getD i 0 ^^^ v)) ∧
    (∀ v, subs i = some v → xors i = none →
      (fuzz_message input xors subs)[i]? = some v) := by
  have hg := fuzz_message_getElem input xors subs i h
  refine ⟨fuzz_message_length input xors subs, ?_, ?_, ?_⟩
  · intro hx hs
    rw [hg, hx, hs, List.getElem?_eq_getElem h, List.getD_eq_getElem?_getD,
      List.getElem?_eq_getElem h]
    rfl
  · intro v hx hs
    rw [hg, hx, hs]
  · intro v hs hx
    rw [hg, hx, hs]

/-- Witness for C5 on a concrete message and mutation set. -/
theorem fuzz_message_pointwise_witness :
    ((fuzz_message [10, 20, 30]
        (fun j => if j = 1 then some 5 else none)
        (fun _ => none)).length = ([10, 20, 30] : List Nat).length ∧
    ((fun j => if j = 1 then some 5 else none) 1 = none →
      (fun _ => (none : Option Nat)) 1 = none →
      (fuzz_message [10, 20, 30] (fun j => if j = 1 then some 5 else none)
        (fun _ => none))[1]? = ([10, 20, 30] : List Nat)[1]?) ∧
    (∀ v, (fun j => if j = 1 then some 5 else none) 1 = some v →
      (fun _ => (none : Option Nat)) 1 = none →
      (fuzz_message [10, 20, 30] (fun j => if j = 1 then some 5 else none)
        (fun _ => none))[1]? =
        some (([10, 20, 30] : List Nat).getD 1 0 ^^^ v)) ∧
    (∀ v, (fun _ => (none : Option Nat)) 1 = some v →
      (fun j => if j = 1 then some 5 else none) 1 = none →
      (fuzz_message [10, 20, 30] (fun j => if j = 1 then some 5 else none)
        (fun _ => none))[1]? = some v)) :=
  fuzz_message_pointwise [10, 20, 30]
    (fun j => if j = 1 then some 5 else none) (fun _ => none) 1 (by decide)

/-! ### C6: every conversation path ends in a terminal matcher -/

theorem endsTerminal_typeFuzzConvs (host : String) (port : Nat)
    (ciphers : List Nat) (dhe ems : Bool) :
    ∀ kv ∈ typeFuzzConvs host port ciphers dhe ems,
      endsTerminal kv.2 = true := by
  intro kv hkv
  obtain ⟨i, -, rfl⟩ := List.mem_map.mp hkv
  exact endsTerminal_fuzzConv _ _ _ _ _ _ _

theorem endsTerminal_sessionIdConvs (host : String) (port : Nat)
    (ciphers : List Nat) (dhe ems : Bool) :
    ∀ kv ∈ sessionIdConvs host port ciphers dhe ems,
      endsTerminal kv.2 = true := by
  intro kv hkv
  obtain ⟨i, -, rfl⟩ := List.mem_map.mp hkv
  exact endsTerminal_fuzzConv _ _ _ _ _ _ _

theorem endsTerminal_sessionIdWExtConvs (host : String) (port : Nat)
    (ciphers : List Nat) (dhe ems : Bool) :
    ∀ kv ∈ sessionIdWExtConvs host port ciphers dhe ems,
      endsTerminal kv.2 = true := by
  intro kv hkv
  obtain ⟨i, -, rfl⟩ := List.mem_map.mp hkv
  exact endsTerminal_fuzzConv _ _ _ _ _ _ _

theorem endsTerminal_cipherLenConvs (host : String) (port : Nat)
    (ciphers : List Nat) (dhe ems : Bool) :
    ∀ kv ∈ cipherLenConvs host port ciphers dhe ems,
      endsTerminal kv.2 = true := by
  intro kv hkv
  obtain ⟨i, -, rfl⟩ := List.mem_map.mp hkv
  exact endsTerminal_fuzzConv _ _ _ _ _ _ _

theorem endsTerminal_cipherLen2Convs (host : String) (port : Nat)
    (ciphers : List Nat) (dhe ems : Bool) :
    ∀ kv ∈ cipherLen2Convs host port ciphers dhe ems,
      endsTerminal kv.2 = true := by
  intro kv hkv
  obtain ⟨i, -, hkv2⟩ := List.mem_flatMap.mp hkv
  obtain ⟨j, -, rfl⟩ := List.mem_map.mp hkv2
  exact endsTerminal_fuzzConv _ _ _ _ _ _ _

theorem endsTerminal_cipherLenWExtConvs (host : String) (port : Nat)
    (ciphers : List Nat) (dhe ems : Bool) :
    ∀ kv ∈ cipherLenWExtConvs host port ciphers dhe ems,
      endsTerminal kv.2 = true := by
  intro kv hkv
  obtain ⟨i, -, heq⟩ := List.mem_filterMap.mp hkv
  by_cases hs : csSkip dhe ems i
  · rw [if_pos hs] at heq
    exact absurd heq (by simp)
  · rw [if_neg hs, Option.some_inj] at heq
    rw [← heq]
    exact endsTerminal_fuzzConv _ _ _ _ _ _ _

theorem endsTerminal_cipherLenWExt2Convs (host : String) (port : Nat)
    (ciphers : List Nat) (dhe ems : Bool) :
    ∀ kv ∈ cipherLenWExt2Convs host port ciphers dhe ems,
      endsTerminal kv.2 = true := by
  intro kv hkv
  obtain ⟨i, -, hkv2⟩ := List.mem_flatMap.mp hkv
  obtain ⟨j, -, rfl⟩ := List.mem_map.mp hkv2
  exact endsTerminal_fuzzConv _ _ _ _ _ _ _

theorem endsTerminal_compLenConvs (host : String) (port : Nat)
    (ciphers : List Nat) (dhe ems : Bool) :
    ∀ kv ∈ compLenConvs host port ciphers dhe ems,
      endsTerminal kv.2 = true := by
  intro kv hkv
  obtain ⟨i, -, rfl⟩ := List.mem_map.mp hkv
  exact endsTerminal_fuzzConv _ _ _ _ _ _ _

theorem endsTerminal_compLenWExtConvs (host : String) (port : Nat)
    (ciphers : List Nat) (dhe ems : Bool) :
    ∀ kv ∈ compLenWExtConvs host port ciphers dhe ems,
      endsTerminal kv.2 = true := by
  intro kv hkv
  obtain ⟨i, -, heq⟩ := List.mem_filterMap.mp hkv
  by_cases hs : cmSkip dhe ems i
  · rw [if_pos hs] at heq
    exact absurd heq (by simp)
  · rw [if_neg hs, Option.some_inj] at heq
    rw [← heq]
    exact endsTerminal_fuzzConv _ _ _ _ _ _ _

theorem endsTerminal_extLenConvs (host : String) (port : Nat)
    (ciphers : List Nat) (dhe ems : Bool) :
    ∀ kv ∈ extLenConvs host port ciphers dhe ems,
      endsTerminal kv.2 = true := by
  intro kv hkv
  obtain ⟨i, -, rfl⟩ := List.mem_map.mp hkv
  exact endsTerminal_fuzzConv _ _ _ _ _ _ _

theorem endsTerminal_extLen2Convs (host : String) (port : Nat)
    (ciphers : List Nat) (dhe ems : Bool) :
    ∀ kv ∈ extLen2Convs host port ciphers dhe ems,
      endsTerminal kv.2 = true := by
  intro kv hkv
  obtain ⟨i, -, hkv2⟩ := List.mem_flatMap.mp hkv
  obtain ⟨j, -, rfl⟩ := List.mem_map.mp hkv2
  exact endsTerminal_fuzzConv _ _ _ _ _ _ _

/-- **C6.** Every Conversation placed in the scenario population — the two
sanity conversations and every mutated variant, under every flag
configuration — has all its root-to-leaf paths end in a terminal matcher:
an `ExpectClose` node, or an `ExpectAlert` node whose `next_sibling` is
`ExpectClose`.  Stated both for the assignment sequence (`convList`) and for
the resulting dict (`conversations`). -/
theorem conversations_end_in_terminal_matcher (host : String) (port : Nat)
    (ciphers : List Nat) (dhe ems : Bool) :
    (∀ kv ∈ convList host port ciphers dhe ems, endsTerminal kv.2 = true) ∧
    (∀ kv ∈ conversations host port ciphers dhe ems,
      endsTerminal kv.2 = true) := by
  have hlist : ∀ kv ∈ convList host port ciphers dhe ems,
      endsTerminal kv.2 = true := by
    intro kv hkv
    simp only [convList, List.mem_append] at hkv
    rcases hkv with
      ((((((((((hkv | hkv) | hkv) | hkv) | hkv) | hkv) | hkv) | hkv) | hkv) |
        hkv) | hkv)
    · rcases List.mem_cons.mp hkv with rfl | hkv
      · exact endsTerminal_sanityConv host port ciphers dhe ems
      · rcases List.mem_singleton.mp hkv with rfl
        exact endsTerminal_sanityWExtConv host port ciphers dhe ems
    · exact endsTerminal_typeFuzzConvs host port ciphers dhe ems kv hkv
    · by_cases hext : (extOpt dhe ems).isNone
      · rw [if_pos hext] at hkv
        exact endsTerminal_sessionIdConvs host port ciphers dhe ems kv hkv
      · rw [if_neg hext] at hkv
        simp at hkv
    · exact endsTerminal_sessionIdWExtConvs host port ciphers dhe ems kv hkv
    · by_cases hext : (extOpt dhe ems).isNone
      · rw [if_pos hext] at hkv
        rcases List.mem_append.mp hkv with hkv | hkv
        · exact endsTerminal_cipherLenConvs host port ciphers dhe ems kv hkv
        · exact endsTerminal_cipherLen2Convs host port ciphers dhe ems kv hkv
      · rw [if_neg hext] at hkv
        simp at hkv
    · exact endsTerminal_cipherLenWExtConvs host port ciphers dhe ems kv hkv
    · exact endsTerminal_cipherLenWExt2Convs host port ciphers dhe ems kv hkv
    · by_cases hext : (extOpt dhe ems).isNone
      · rw [if_pos hext] at hkv
        exact endsTerminal_compLenConvs host port ciphers dhe ems kv hkv
      · rw [if_neg hext] at hkv
        simp at hkv
    · exact endsTerminal_compLenWExtConvs host port ciphers dhe ems kv hkv
    · exact endsTerminal_extLenConvs host port ciphers dhe ems kv hkv
    · exact endsTerminal_extLen2Convs host port ciphers dhe ems kv hkv
  exact ⟨hlist, fun kv hkv => hlist kv (mem_buildDict kv _ hkv)⟩

/-- Witness for C6 at the default configuration's sanity conversation. -/
theorem conversations_end_in_terminal_matcher_witness :
    endsTerminal (sanityConv "localhost" 4433 [rsaAes128] false false) =
      true :=
  (conversations_end_in_terminal_matcher "localhost" 4433 [rsaAes128]
    false false).1
    (ConvName.sanity, sanityConv "localhost" 4433 [rsaAes128] false false)
    (by simp [convList])

/-! ### C8: the `session ID len fuzz to 37` conversation -/

/-- **C8.** In the default configuration the population maps
`session ID len fuzz to 37` to the conversation that substitutes byte 37 at
ClientHello offset 38 (the session-ID length byte, whose baseline value
is 0) and expects a fatal `decode_error` alert followed by close; a target
answering with exactly that alert and a close lets the Runner finish without
error, and an exception-free run of an unregistered conversation is
classified PASS.  (Script lines 218–229; Runner modelled from the spec.) -/
theorem session_id_fuzz_37 (host : String) (port : Nat) (ciphers : List Nat) :
    dlookup (ConvName.sessionIdLen 37)
      (conversations host port ciphers false false) =
      some (fuzzConv host port (helloNoExt ciphers false false) [] [(38, 37)]
        (some .fatal) (some .decode_error)) ∧
    runConv
      (fuzzConv host port (helloNoExt ciphers false false) [] [(38, 37)]
        (some .fatal) (some .decode_error))
      [.alert .fatal .decode_error, .close] = true ∧
    outcomeOf ([] : List (ConvName × Option String))
      (ConvName.sessionIdLen 37) none = .pass := by
  have hcond : (extOpt false false).isNone = true := rfl
  refine ⟨?_, rfl, rfl⟩
  apply dlookup_buildDict
  · have hmem37 : (ConvName.sessionIdLen 37,
        fuzzConv host port (helloNoExt ciphers false false) [] [(38, 37)]
          (some .fatal) (some .decode_error)) ∈
        sessionIdConvs host port ciphers false false := by
      apply List.mem_map.mpr
      exact ⟨37, by decide, rfl⟩
    simp only [convList, List.mem_append]
    exact Or.inl (Or.inl (Or.inl (Or.inl (Or.inl (Or.inl (Or.inl (Or.inl
      (Or.inr (by rw [if_pos hcond]; exact hmem37)))))))))
  · intro p hp hkey
    simp only [convList, List.mem_append] at hp
    rcases hp with
      ((((((((((hp | hp) | hp) | hp) | hp) | hp) | hp) | hp) | hp) |
        hp) | hp)
    · rcases List.mem_cons.mp hp with rfl | hp
      · simp at hkey
      · rcases List.mem_singleton.mp hp with rfl
        simp at hkey
    · obtain ⟨i, -, rfl⟩ := List.mem_map.mp hp
      simp at hkey
    · rw [if_pos hcond] at hp
      obtain ⟨i, -, rfl⟩ := List.mem_map.mp hp
      simp only at hkey
      have : i = 37 := by simpa using hkey
      subst this
      rfl
    · obtain ⟨i, -, rfl⟩ := List.mem_map.mp hp
      simp at hkey
    · rw [if_pos hcond] at hp
      rcases List.mem_append.mp hp with hp | hp
      · obtain ⟨i, -, rfl⟩ := List.mem_map.mp hp
        simp at hkey
      · obtain ⟨i, -, hp2⟩ := List.mem_flatMap.mp hp
        obtain ⟨j, -, rfl⟩ := List.mem_map.mp hp2
        simp at hkey
    · obtain ⟨i, -, heq⟩ := List.mem_filterMap.mp hp
      rw [if_neg (by simp [csSkip])] at heq
      obtain rfl := Option.some_inj.mp heq
      simp at hkey
    · obtain ⟨i, -, hp2⟩ := List.mem_flatMap.mp hp
      obtain ⟨j, -, rfl⟩ := List.mem_map.mp hp2
      simp at hkey
    · rw [if_pos hcond] at hp
      obtain ⟨i, -, rfl⟩ := List.mem_map.mp hp
      simp at hkey
    · obtain ⟨i, -, heq⟩ := List.mem_filterMap.mp hp
      by_cases hs : cmSkip false false i
      · rw [if_pos hs] at heq
        exact absurd heq (by simp)
      · rw [if_neg hs] at heq
        obtain rfl := Option.some_inj.mp heq
        simp at hkey
    · obtain ⟨i, -, rfl⟩ := List.mem_map.mp hp
      simp at hkey
    · obtain ⟨i, -, hp2⟩ := List.mem_flatMap.mp hp
      obtain ⟨j, -, rfl⟩ := List.mem_map.mp hp2
      simp at hkey

/-! ### C7: the documented skip values -/

theorem nat_xor_left_cancel {a x y : Nat} (h : a ^^^ x = a ^^^ y) : x = y := by
  have h2 := congrArg (fun z => a ^^^ z) h
  simpa [← Nat.xor_assoc, Nat.xor_cancel_left] using h2

theorem nat_xor_lt_256 {a i : Nat} (ha : a < 256) (hi : i < 256) :
    a ^^^ i < 256 := by
  have h8 : (256 : Nat) = 2 ^ 8 := by norm_num
  rw [h8] at ha hi ⊢
  exact Nat.xor_lt_two_pow ha hi

theorem one_le_of_mem_hiBytes {i : Nat} (hi : i ∈ hiBytes) : 1 ≤ i := by
  simp [hiBytes] at hi
  rcases hi with rfl | rfl | rfl | rfl | rfl | rfl | rfl | rfl <;> decide

theorem one_le_of_mem_hiBytesNoExt {i : Nat} (hi : i ∈ hiBytesNoExt) :
    1 ≤ i := by
  simp [hiBytesNoExt] at hi
  rcases hi with rfl | rfl | rfl | rfl | rfl | rfl | rfl <;> decide

theorem shift8_add_ge {i : Nat} (j : Nat) (h1 : 1 ≤ i) :
    256 ≤ (i <<< 8) + j := by
  rw [Nat.shiftLeft_eq]
  have h : 256 ≤ i * 2 ^ 8 := by
    calc (256 : Nat) = 1 * 2 ^ 8 := by norm_num
    _ ≤ i * 2 ^ 8 := Nat.mul_le_mul_right _ h1
  omega

theorem mem_rng255_iff {i : Nat} : i ∈ rng255 ↔ 1 ≤ i ∧ i < 256 := by
  rw [rng255, List.mem_range'_1]

theorem keys_typeFuzzConvs (host : String) (port : Nat) (ciphers : List Nat)
    (dhe ems : Bool) :
    (typeFuzzConvs host port ciphers dhe ems).map Prod.fst =
      rng255.map fun i => ConvName.clientHelloType (1 ^^^ i) := by
  simp [typeFuzzConvs]

theorem keys_sessionIdConvs (host : String) (port : Nat) (ciphers : List Nat)
    (dhe ems : Bool) :
    (sessionIdConvs host port ciphers dhe ems).map Prod.fst =
      rng255.map fun i => ConvName.sessionIdLen i := by
  simp [sessionIdConvs]

theorem keys_sessionIdWExtConvs (host : String) (port : Nat)
    (ciphers : List Nat) (dhe ems : Bool) :
    (sessionIdWExtConvs host port ciphers dhe ems).map Prod.fst =
      rng255.map fun i => ConvName.sessionIdLenWExt i := by
  simp [sessionIdWExtConvs]

theorem keys_cipherLenConvs (host : String) (port : Nat) (ciphers : List Nat)
    (dhe ems : Bool) :
    (cipherLenConvs host port ciphers dhe ems).map Prod.fst =
      rng255.map fun i => ConvName.cipherSuitesLen (4 ^^^ i) := by
  simp [cipherLenConvs]

theorem keys_cipherLen2Convs (host : String) (port : Nat) (ciphers : List Nat)
    (dhe ems : Bool) :
    (cipherLen2Convs host port ciphers dhe ems).map Prod.fst =
      hiBytes.flatMap fun i =>
        rng256.map fun j => ConvName.cipherSuitesLen ((i <<< 8) + j) := by
  simp only [cipherLen2Convs, List.map_flatMap]
  exact congrArg (fun g => hiBytes.flatMap g) (funext fun i => by
    simp [Function.comp])

theorem keys_cipherLenWExtConvs (host : String) (port : Nat)
    (ciphers : List Nat) (dhe ems : Bool) :
    (cipherLenWExtConvs host port ciphers dhe ems).map Prod.fst =
      rng255.filterMap fun i =>
        if csSkip dhe ems i then none
        else some (ConvName.cipherSuitesLenWExt (4 ^^^ i)) := by
  simp only [cipherLenWExtConvs, List.map_filterMap]
  congr 1
  funext i
  by_cases hs : csSkip dhe ems i <;> simp [hs]

theorem keys_cipherLenWExt2Convs (host : String) (port : Nat)
    (ciphers : List Nat) (dhe ems : Bool) :
    (cipherLenWExt2Convs host port ciphers dhe ems).map Prod.fst =
      hiBytes.flatMap fun i =>
        rng256.map fun j => ConvName.cipherSuitesLenWExt ((i <<< 8) + j) := by
  simp only [cipherLenWExt2Convs, List.map_flatMap]
  exact congrArg (fun g => hiBytes.flatMap g) (funext fun i => by
    simp [Function.comp])

theorem keys_compLenConvs (host : String) (port : Nat) (ciphers : List Nat)
    (dhe ems : Bool) :
    (compLenConvs host port ciphers dhe ems).map Prod.fst =
      rng255.map fun i => ConvName.compressionLen (1 ^^^ i) := by
  simp [compLenConvs]

theorem keys_compLenWExtConvs (host : String) (port : Nat)
    (ciphers : List Nat) (dhe ems : Bool) :
    (compLenWExtConvs host port ciphers dhe ems).map Prod.fst =
      rng255.filterMap fun i =>
        if cmSkip dhe ems i then none
        else some (ConvName.compressionLenWExt (1 ^^^ i)) := by
  simp only [compLenWExtConvs, List.map_filterMap]
  congr 1
  funext i
  by_cases hs : cmSkip dhe ems i <;> simp [hs]

theorem keys_extLenConvs (host : String) (port : Nat) (ciphers : List Nat)
    (dhe ems : Bool) :
    (extLenConvs host port ciphers dhe ems).map Prod.fst =
      rng255.map fun i => ConvName.extensionsLen (5 ^^^ i) := by
  simp [extLenConvs]

theorem keys_extLen2Convs (host : String) (port : Nat) (ciphers : List Nat)
    (dhe ems : Bool) :
    (extLen2Convs host port ciphers dhe ems).map Prod.fst =
      hiBytesNoExt.flatMap fun i =>
        rng256.map fun j => ConvName.extensionsLen ((i <<< 8) + j) := by
  simp only [extLen2Convs, List.map_flatMap]
  exact congrArg (fun g => hiBytesNoExt.flatMap g) (funext fun i => by
    simp [Function.comp])

/-- Which names the assignment sequence can produce: every key of
`convList` comes from one of the name families, under that family's
generation conditions. -/
theorem keys_convList_cases (host : String) (port : Nat) (ciphers : List Nat)
    (dhe ems : Bool) (k : ConvName)
    (hk : k ∈ (convList host port ciphers dhe ems).map Prod.fst) :
    k = .sanity ∨ k = .sanityWExt ∨
    (∃ i ∈ rng255, k = .clientHelloType (1 ^^^ i)) ∨
    (∃ i ∈ rng255, k = .sessionIdLen i) ∨
    (∃ i ∈ rng255, k = .sessionIdLenWExt i) ∨
    (∃ i ∈ rng255, k = .cipherSuitesLen (4 ^^^ i)) ∨
    (∃ i ∈ hiBytes, ∃ j, k = .cipherSuitesLen ((i <<< 8) + j)) ∨
    (∃ i ∈ rng255, csSkip dhe ems i = false ∧
      k = .cipherSuitesLenWExt (4 ^^^ i)) ∨
    (∃ i ∈ hiBytes, ∃ j, k = .cipherSuitesLenWExt ((i <<< 8) + j)) ∨
    (∃ i ∈ rng255, k = .compressionLen (1 ^^^ i)) ∨
    (∃ i ∈ rng255, cmSkip dhe ems i = false ∧
      k = .compressionLenWExt (1 ^^^ i)) ∨
    (∃ i ∈ rng255, k = .extensionsLen (5 ^^^ i)) ∨
    (∃ i ∈ hiBytesNoExt, ∃ j, k = .extensionsLen ((i <<< 8) + j)) := by
  simp only [convList, List.map_append, List.mem_append] at hk
  rcases hk with
    ((((((((((hk | hk) | hk) | hk) | hk) | hk) | hk) | hk) | hk) |
      hk) | hk)
  · simp only [List.map_cons, List.map_nil, List.mem_cons,
      List.mem_singleton] at hk
    rcases hk with rfl | rfl | hk
    · exact Or.inl rfl
    · exact Or.inr (Or.inl rfl)
    · simp at hk
  · rw [keys_typeFuzzConvs] at hk
    obtain ⟨i, hi, rfl⟩ := List.mem_map.mp hk
    exact Or.inr (Or.inr (Or.inl ⟨i, hi, rfl⟩))
  · by_cases hext : (extOpt dhe ems).isNone
    · rw [if_pos hext, keys_sessionIdConvs] at hk
      obtain ⟨i, hi, rfl⟩ := List.mem_map.mp hk
      exact Or.inr (Or.inr (Or.inr (Or.inl ⟨i, hi, rfl⟩)))
    · rw [if_neg hext] at hk
      simp at hk
  · rw [keys_sessionIdWExtConvs] at hk
    obtain ⟨i, hi, rfl⟩ := List.mem_map.mp hk
    exact Or.inr (Or.inr (Or.inr (Or.inr (Or.inl ⟨i, hi, rfl⟩))))
  · by_cases hext : (extOpt dhe ems).isNone
    · rw [if_pos hext, List.map_append] at hk
      rcases List.mem_append.mp hk with hk | hk
      · rw [keys_cipherLenConvs] at hk
        obtain ⟨i, hi, rfl⟩ := List.mem_map.mp hk
        exact Or.inr (Or.inr (Or.inr (Or.inr (Or.inr (Or.inl ⟨i, hi, rfl⟩)))))
      · rw [keys_cipherLen2Convs] at hk
        obtain ⟨i, hi, hk2⟩ := List.mem_flatMap.mp hk
        obtain ⟨j, -, rfl⟩ := List.mem_map.mp hk2
        exact Or.inr (Or.inr (Or.inr (Or.inr (Or.inr (Or.inr (Or.inl
          ⟨i, hi, j, rfl⟩))))))
    · rw [if_neg hext] at hk
      simp at hk
  · rw [keys_cipherLenWExtConvs] at hk
    obtain ⟨i, hi, heq⟩ := List.mem_filterMap.mp hk
    by_cases hs : csSkip dhe ems i
    · rw [if_pos hs] at heq
      exact absurd heq (by simp)
    · rw [if_neg hs] at heq
      obtain rfl := Option.some_inj.mp heq
      exact Or.inr (Or.inr (Or.inr (Or.inr (Or.inr (Or.inr (Or.inr (Or.inl
        ⟨i, hi, by simpa using hs, rfl⟩)))))))
  · rw [keys_cipherLenWExt2Convs] at hk
    obtain ⟨i, hi, hk2⟩ := List.mem_flatMap.mp hk
    obtain ⟨j, -, rfl⟩ := List.mem_map.mp hk2
    exact Or.inr (Or.inr (Or.inr (Or.inr (Or.inr (Or.inr (Or.inr (Or.inr
      (Or.inl ⟨i, hi, j, rfl⟩))))))))
  · by_cases hext : (extOpt dhe ems).isNone
    · rw [if_pos hext, keys_compLenConvs] at hk
      obtain ⟨i, hi, rfl⟩ := List.mem_map.mp hk
      exact Or.inr (Or.inr (Or.inr (Or.inr (Or.inr (Or.inr (Or.inr (Or.inr
        (Or.inr (Or.inl ⟨i, hi, rfl⟩)))))))))
    · rw [if_neg hext] at hk
      simp at hk
  · rw [keys_compLenWExtConvs] at hk
    obtain ⟨i, hi, heq⟩ := List.mem_filterMap.mp hk
    by_cases hs : cmSkip dhe ems i
    · rw [if_pos hs] at heq
      exact absurd heq (by simp)
    · rw [if_neg hs] at heq
      obtain rfl := Option.some_inj.mp heq
      exact Or.inr (Or.inr (Or.inr (Or.inr (Or.inr (Or.inr (Or.inr (Or.inr
        (Or.inr (Or.inr (Or.inl ⟨i, hi, by simpa using hs, rfl⟩))))))))))
  · rw [keys_extLenConvs] at hk
    obtain ⟨i, hi, rfl⟩ := List.mem_map.mp hk
    exact Or.inr (Or.inr (Or.inr (Or.inr (Or.inr (Or.inr (Or.inr (Or.inr
      (Or.inr (Or.inr (Or.inr (Or.inl ⟨i, hi, rfl⟩)))))))))))
  · rw [keys_extLen2Convs] at hk
    obtain ⟨i, hi, hk2⟩ := List.mem_flatMap.mp hk
    obtain ⟨j, -, rfl⟩ := List.mem_map.mp hk2
    exact Or.inr (Or.inr (Or.inr (Or.inr (Or.inr (Or.inr (Or.inr (Or.inr
      (Or.inr (Or.inr (Or.inr (Or.inr ⟨i, hi, j, rfl⟩)))))))))))

/-- **C7.** The two `w/ext` XOR sweeps omit exactly the documented
structurally-valid mutation values: for every flag configuration and every
`i` in `1..255`, the name `cipher suites len fuzz to {4^i} w/ext` is a key
of the population iff `i` is not a skip value (`i = 56` under `dhe` alone,
`i = 60` under `dhe` and `ems`), and `compression methods len fuzz to
{1^i} w/ext` is a key iff `1^i` is not the skip value of the configuration
(8 with neither flag, 62 under `dhe` alone, 66 under both, 12 under `ems`
alone) — `csSkip`/`cmSkip` being those exact documented conditions.
(Script lines 269–284 and 312–329.) -/
theorem documented_skip_values (host : String) (port : Nat)
    (ciphers : List Nat) (dhe ems : Bool) (i : Nat)
    (h1 : 1 ≤ i) (h2 : i ≤ 255) :
    (ConvName.cipherSuitesLenWExt (4 ^^^ i) ∈
        (conversations host port ciphers dhe ems).map Prod.fst ↔
      csSkip dhe ems i = false) ∧
    (ConvName.compressionLenWExt (1 ^^^ i) ∈
        (conversations host port ciphers dhe ems).map Prod.fst ↔
      cmSkip dhe ems i = false) := by
  simp only [conversations, mem_keys_buildDict]
  constructor
  · constructor
    · intro hmem
      rcases keys_convList_cases host port ciphers dhe ems _ hmem with
        h | h | h | h | h | h | h | h | h | h | h | h | h
      · simp at h
      · simp at h
      · obtain ⟨i', -, heq⟩ := h
        simp at heq
      · obtain ⟨i', -, heq⟩ := h
        simp at heq
      · obtain ⟨i', -, heq⟩ := h
        simp at heq
      · obtain ⟨i', -, heq⟩ := h
        simp at heq
      · obtain ⟨i', -, j, heq⟩ := h
        simp at heq
      · obtain ⟨i', -, hskip, heq⟩ := h
        have hv : (4 : Nat) ^^^ i = 4 ^^^ i' := by simpa using heq
        rw [nat_xor_left_cancel hv]
        exact hskip
      · obtain ⟨i', hi', j, heq⟩ := h
        have hv : (4 : Nat) ^^^ i = (i' <<< 8) + j := by simpa using heq
        have hlt : (4 : Nat) ^^^ i < 256 :=
          nat_xor_lt_256 (by norm_num) (by omega)
        have hge := shift8_add_ge j (one_le_of_mem_hiBytes hi')
        omega
      · obtain ⟨i', -, heq⟩ := h
        simp at heq
      · obtain ⟨i', -, -, heq⟩ := h
        simp at heq
      · obtain ⟨i', -, heq⟩ := h
        simp at heq
      · obtain ⟨i', -, j, heq⟩ := h
        simp at heq
    · intro hskip
      simp only [convList, List.map_append, List.mem_append]
      refine Or.inl (Or.inl (Or.inl (Or.inl (Or.inl (Or.inr ?_)))))
      rw [keys_cipherLenWExtConvs]
      apply List.mem_filterMap.mpr
      refine ⟨i, mem_rng255_iff.mpr ⟨h1, by omega⟩, ?_⟩
      rw [if_neg (by simp [hskip])]
  · constructor
    · intro hmem
      rcases keys_convList_cases host port ciphers dhe ems _ hmem with
        h | h | h | h | h | h | h | h | h | h | h | h | h
      · simp at h
      · simp at h
      · obtain ⟨i', -, heq⟩ := h
        simp at heq
      · obtain ⟨i', -, heq⟩ := h
        simp at heq
      · obtain ⟨i', -, heq⟩ := h
        simp at heq
      · obtain ⟨i', -, heq⟩ := h
        simp at heq
      · obtain ⟨i', -, j, heq⟩ := h
        simp at heq
      · obtain ⟨i', -, -, heq⟩ := h
        simp at heq
      · obtain ⟨i', -, j, heq⟩ := h
        simp at heq
      · obtain ⟨i', -, heq⟩ := h
        simp at heq
      · obtain ⟨i', -, hskip, heq⟩ := h
        have hv : (1 : Nat) ^^^ i = 1 ^^^ i' := by simpa using heq
        rw [nat_xor_left_cancel hv]
        exact hskip
      · obtain ⟨i', -, heq⟩ := h
        simp at heq
      · obtain ⟨i', -, j, heq⟩ := h
        simp at heq
    · intro hskip
      simp only [convList, List.map_append, List.mem_append]
      refine Or.inl (Or.inl (Or.inr ?_))
      rw [keys_compLenWExtConvs]
      apply List.mem_filterMap.mpr
      refine ⟨i, mem_rng255_iff.mpr ⟨h1, by omega⟩, ?_⟩
      rw [if_neg (by simp [hskip])]

/-- Witness for C7 at `-d` without `--ems` and `i = 56` (a skip value of the
cipher-suites sweep, a kept value of the compression sweep). -/
theorem documented_skip_values_witness :
    (ConvName.cipherSuitesLenWExt (4 ^^^ 56) ∈
        (conversations "localhost" 4433 [rsaAes128] true false).map
          Prod.fst ↔
      csSkip true false 56 = false) ∧
    (ConvName.compressionLenWExt (1 ^^^ 56) ∈
        (conversations "localhost" 4433 [rsaAes128] true false).map
          Prod.fst ↔
      cmSkip true false 56 = false) :=
  documented_skip_values "localhost" 4433 [rsaAes128] true false 56
    (by decide) (by decide)

/-! ### C3: sampling -/

theorem sampledTests_length (regular : List (ConvName × TreeNode)) :
    ∀ idxs : List Nat, (∀ i ∈ idxs, i < regular.length) →
    (sampledTests regular idxs).length = idxs.length := by
  intro idxs
  induction idxs with
  | nil => intro _; rfl
  | cons a rest ih =>
    intro hb
    have ha : a < regular.length := hb a (List.mem_cons_self _ _)
    rw [sampledTests, List.filterMap_cons, List.getElem?_eq_getElem ha]
    simp only [List.length_cons]
    rw [← sampledTests, ih fun i hi => hb i (List.mem_cons_of_mem _ hi)]

theorem mem_regular_of_mem_sampledTests
    (regular : List (ConvName × TreeNode)) (idxs : List Nat)
    (kv : ConvName × TreeNode) (h : kv ∈ sampledTests regular idxs) :
    kv ∈ regular := by
  obtain ⟨i, -, hget⟩ := List.mem_filterMap.mp h
  obtain ⟨hlt, rfl⟩ := List.getElem?_eq_some.mp hget
  exact List.getElem_mem hlt

theorem nodup_keys_sampledTests (regular : List (ConvName × TreeNode))
    (hreg : (regular.map Prod.fst).Nodup) :
    ∀ idxs : List Nat, idxs.Nodup → (∀ i ∈ idxs, i < regular.length) →
    ((sampledTests regular idxs).map Prod.fst).Nodup := by
  intro idxs
  induction idxs with
  | nil => intro _ _; simp [sampledTests]
  | cons a rest ih =>
    intro hnd hb
    have ha : a < regular.length := hb a (List.mem_cons_self _ _)
    rw [sampledTests, List.filterMap_cons, List.getElem?_eq_getElem ha,
      ← sampledTests]
    rw [List.map_cons, List.nodup_cons]
    refine ⟨?_, ih (List.Nodup.of_cons hnd)
      (fun i hi => hb i (List.mem_cons_of_mem _ hi))⟩
    intro hmem
    obtain ⟨kv, hkv, hfst⟩ := List.mem_map.mp hmem
    obtain ⟨j, hj, hget⟩ := List.mem_filterMap.mp hkv
    have hjlt : j < regular.length := hb j (List.mem_cons_of_mem _ hj)
    rw [List.getElem?_eq_getElem hjlt] at hget
    obtain rfl := Option.some_inj.mp hget
    have hlen1 : j < (regular.map Prod.fst).length := by simpa using hjlt
    have hlen2 : a < (regular.map Prod.fst).length := by simpa using ha
    have hmapeq : (regular.map Prod.fst).get ⟨j, hlen1⟩ =
        (regular.map Prod.fst).get ⟨a, hlen2⟩ := by
      rw [List.get_eq_getElem, List.get_eq_getElem, List.getElem_map,
        List.getElem_map]
      exact hfst
    have haj : j = a := by
      have hlen1 : j < (regular.map Prod.fst).length := by simpa using hjlt
      have hlen2 : a < (regular.map Prod.fst).length := by simpa using ha
      have hinj := List.nodup_iff_injective_get.mp hreg
      have heq2 : (regular.map Prod.fst).get ⟨j, hlen1⟩ =
          (regular.map Prod.fst).get ⟨a, hlen2⟩ := by
        simpa [List.get_eq_getElem] using hmapeq
      have := hinj heq2
      simpa using congrArg Fin.val this
    rw [haj] at hj
    exact (List.nodup_cons.mp hnd).1 hj

theorem full_coverage_of_nodup (idxs : List Nat) (n : Nat)
    (hnd : idxs.Nodup) (hb : ∀ i ∈ idxs, i < n) (hlen : idxs.length = n) :
    ∀ j < n, j ∈ idxs := by
  intro j hj
  by_contra hjn
  have hcard : idxs.toFinset.card = n := by
    rw [List.toFinset_card_of_nodup hnd, hlen]
  have hsub : idxs.toFinset ⊆ (Finset.range n).erase j := by
    intro x hx
    rw [List.mem_toFinset] at hx
    refine Finset.mem_erase.mpr ⟨fun hxj => hjn (hxj ▸ hx),
      Finset.mem_range.mpr (hb x hx)⟩
  have hle := Finset.card_le_card hsub
  rw [hcard, Finset.card_erase_of_mem (Finset.mem_range.mpr hj),
    Finset.card_range] at hle
  omega

/-- **C3.** For runs without a selection set: with `0 < N` smaller than the
eligible population the sample has exactly `N` entries, its names are
pairwise distinct and never `sanity` nor excluded; the ordered execution
sequence begins and ends with the sanity conversation; and a zero limit
selects every eligible conversation.  (Script lines 362–376; the random
draw of `random.sample` is any duplicate-free in-bounds index list of the
prescribed length.) -/
theorem sampling_properties (l : List (ConvName × TreeNode))
    (runExclude : List ConvName) (numLimit : Nat) (idxs : List Nat)
    (hnd : idxs.Nodup)
    (hbd : ∀ i ∈ idxs,
      i < (regularTests (buildDict l) none runExclude).length)
    (hlen : idxs.length =
      min (effectiveLimit (buildDict l) none numLimit)
        (regularTests (buildDict l) none runExclude).length) :
    (0 < numLimit →
      numLimit < (regularTests (buildDict l) none runExclude).length →
      (sampledTests (regularTests (buildDict l) none runExclude)
        idxs).length = numLimit) ∧
    ((sampledTests (regularTests (buildDict l) none runExclude) idxs).map
      Prod.fst).Nodup ∧
    (∀ kv ∈ sampledTests (regularTests (buildDict l) none runExclude) idxs,
      kv.1 ≠ ConvName.sanity ∧ kv.1 ∉ runExclude) ∧
    ((orderedTests (sanityTests (buildDict l))
        (sampledTests (regularTests (buildDict l) none runExclude)
          idxs)).map Prod.fst).head? = some ConvName.sanity ∧
    ((orderedTests (sanityTests (buildDict l))
        (sampledTests (regularTests (buildDict l) none runExclude)
          idxs)).map Prod.fst).getLast? = some ConvName.sanity ∧
    (numLimit = 0 →
      ∀ kv ∈ regularTests (buildDict l) none runExclude,
        kv ∈ sampledTests (regularTests (buildDict l) none runExclude)
          idxs) := by
  have hregnd : ((regularTests (buildDict l) none runExclude).map
      Prod.fst).Nodup := by
    have hsub : List.Sublist (regularTests (buildDict l) none runExclude)
        (buildDict l) := by
      rw [regularTests]
      exact List.filter_sublist _
    exact List.Nodup.sublist (List.Sublist.map Prod.fst hsub)
      (nodup_keys_buildDict l)
  refine ⟨?_, ?_, ?_, ?_, ?_, ?_⟩
  · intro hpos hsmall
    rw [sampledTests_length _ idxs hbd, hlen, effectiveLimit, resolvedLimit,
      if_neg (Nat.pos_iff_ne_zero.mp hpos)]
    omega
  · exact nodup_keys_sampledTests _ hregnd idxs hnd hbd
  · intro kv hkv
    have hreg := mem_regular_of_mem_sampledTests _ idxs kv hkv
    rw [regularTests] at hreg
    have := (List.mem_filter.mp hreg).2
    simpa using this
  · simp [orderedTests, sanityTests]
  · rw [orderedTests, sanityTests]
    rw [show ([((ConvName.sanity : ConvName),
        (dlookup ConvName.sanity (buildDict l)).getD stubTree)] ++
        sampledTests (regularTests (buildDict l) none runExclude) idxs ++
        [((ConvName.sanity : ConvName),
          (dlookup ConvName.sanity (buildDict l)).getD stubTree)]) =
      (((ConvName.sanity,
          (dlookup ConvName.sanity (buildDict l)).getD stubTree) ::
        sampledTests (regularTests (buildDict l) none runExclude) idxs) ++
        [(ConvName.sanity,
          (dlookup ConvName.sanity (buildDict l)).getD stubTree)])
      from by simp]
    rw [List.map_append]
    rw [List.getLast?_append_of_ne_nil _ (by simp)]
    simp
  · intro h0
    subst h0
    have hregle : (regularTests (buildDict l) none runExclude).length ≤
        (buildDict l).length := by
      rw [regularTests]
      exact List.length_filter_le _ _
    have hlen' : idxs.length =
        (regularTests (buildDict l) none runExclude).length := by
      rw [hlen, effectiveLimit, resolvedLimit, if_pos rfl]
      omega
    intro kv hkv
    obtain ⟨j, hj, hget⟩ := List.mem_iff_getElem.mp hkv
    refine List.mem_filterMap.mpr ⟨j, ?_, ?_⟩
    · exact full_coverage_of_nodup idxs _ hnd hbd hlen' j hj
    · rw [List.getElem?_eq_getElem hj, hget]

/-- Witness for C3 on a four-conversation population with one exclusion,
limit 1 and the draw at position 0. -/
theorem sampling_properties_witness :
    ((0 < 1 →
      1 < (regularTests
        (buildDict [(ConvName.sanity, stubTree),
          (ConvName.clientHelloType 3, stubTree),
          (ConvName.sessionIdLen 1, stubTree),
          (ConvName.sessionIdLen 2, stubTree)]) none
        [ConvName.sessionIdLen 2]).length →
      (sampledTests (regularTests
        (buildDict [(ConvName.sanity, stubTree),
          (ConvName.clientHelloType 3, stubTree),
          (ConvName.sessionIdLen 1, stubTree),
          (ConvName.sessionIdLen 2, stubTree)]) none
        [ConvName.sessionIdLen 2]) [0]).length = 1) ∧
    ((sampledTests (regularTests
        (buildDict [(ConvName.sanity, stubTree),
          (ConvName.clientHelloType 3, stubTree),
          (ConvName.sessionIdLen 1, stubTree),
          (ConvName.sessionIdLen 2, stubTree)]) none
        [ConvName.sessionIdLen 2]) [0]).map Prod.fst).Nodup ∧
    (∀ kv ∈ sampledTests (regularTests
        (buildDict [(ConvName.sanity, stubTree),
          (ConvName.clientHelloType 3, stubTree),
          (ConvName.sessionIdLen 1, stubTree),
          (ConvName.sessionIdLen 2, stubTree)]) none
        [ConvName.sessionIdLen 2]) [0],
      kv.1 ≠ ConvName.sanity ∧ kv.1 ∉ [ConvName.sessionIdLen 2]) ∧
    ((orderedTests (sanityTests
        (buildDict [(ConvName.sanity, stubTree),
          (ConvName.clientHelloType 3, stubTree),
          (ConvName.sessionIdLen 1, stubTree),
          (ConvName.sessionIdLen 2, stubTree)]))
        (sampledTests (regularTests
          (buildDict [(ConvName.sanity, stubTree),
            (ConvName.clientHelloType 3, stubTree),
            (ConvName.sessionIdLen 1, stubTree),
            (ConvName.sessionIdLen 2, stubTree)]) none
          [ConvName.sessionIdLen 2]) [0])).map Prod.fst).head? =
      some ConvName.sanity ∧
    ((orderedTests (sanityTests
        (buildDict [(ConvName.sanity, stubTree),
          (ConvName.clientHelloType 3, stubTree),
          (ConvName.sessionIdLen 1, stubTree),
          (ConvName.sessionIdLen 2, stubTree)]))
        (sampledTests (regularTests
          (buildDict [(ConvName.sanity, stubTree),
            (ConvName.clientHelloType 3, stubTree),
            (ConvName.sessionIdLen 1, stubTree),
            (ConvName.sessionIdLen 2, stubTree)]) none
          [ConvName.sessionIdLen 2]) [0])).map Prod.fst).getLast? =
      some ConvName.sanity ∧
    ((1 : Nat) = 0 →
      ∀ kv ∈ regularTests
        (buildDict [(ConvName.sanity, stubTree),
          (ConvName.clientHelloType 3, stubTree),
          (ConvName.sessionIdLen 1, stubTree),
          (ConvName.sessionIdLen 2, stubTree)]) none
        [ConvName.sessionIdLen 2],
      kv ∈ sampledTests (regularTests
        (buildDict [(ConvName.sanity, stubTree),
          (ConvName.clientHelloType 3, stubTree),
          (ConvName.sessionIdLen 1, stubTree),
          (ConvName.sessionIdLen 2, stubTree)]) none
        [ConvName.sessionIdLen 2]) [0])) :=
  sampling_properties
    [(ConvName.sanity, stubTree), (ConvName.clientHelloType 3, stubTree),
     (ConvName.sessionIdLen 1, stubTree), (ConvName.sessionIdLen 2, stubTree)]
    [ConvName.sessionIdLen 2] 1 [0] (by simp)
    (by intro i hi; simp at hi; subst hi; decide) (by decide)

/-! ## Command-line option processing (script lines 57–102) -/

/-- The options the script's getopt loop handles (lines 70–102);
`getopt.getopt` has already filtered the argument vector against
`"h:p:e:x:X:n:dC:M"` / `["help", "ems"]`, so only these can reach the loop.
The `int(arg)` parsing of `-p`/`-n` and the cipher-suite resolution of `-C`
happen in library code, so those options carry their parsed values. -/
inductive Opt where
  | host (s : String)
  | port (n : Nat)
  | exclude (s : String)
  | expectFail (s : String)
  | expectMsg (s : String)
  | numOpt (n : Nat)
  | dheFlag
  | cipherOpt (n : Nat)
  | emsFlag
  | helpFlag
  deriving DecidableEq

/-- The option loop's mutable state (lines 58–66). -/
structure OptState where
  host : String := "localhost"
  port : Nat := 4433
  numLimit : Nat := 500
  runExclude : List String := []
  expectedFailures : List (String × Option String) := []
  lastExp : Option String := none
  dhe : Bool := false
  ciphers : Option (List Nat) := none
  ems : Bool := false
  deriving DecidableEq

/-- How option processing can stop early: the `-X`-without-`-x` `ValueError`
(line 82), or `--help`, which prints usage and calls `sys.exit(0)`
(lines 98–100). -/
inductive ParseExit where
  | valueError (msg : String)
  | helpExit
  deriving DecidableEq

/-- One iteration of the option loop (lines 70–102).  Python's
`if not last_exp_tmp` (line 81) treats both `None` and the empty string as
falsy, so `-X` after `-x ""` also raises. -/
def procOpt (st : OptState) : Opt → Except ParseExit OptState
  | .host s => .ok { st with host := s }
  | .port n => .ok { st with port := n }
  | .exclude s => .ok { st with runExclude := st.runExclude ++ [s] }
  | .expectFail s =>
    .ok { st with
      expectedFailures := dinsert s none st.expectedFailures
      lastExp := some s }
  | .expectMsg m =>
    match st.lastExp with
    | none => .error (.valueError "-x has to be specified before -X")
    | some nm =>
      if nm = "" then .error (.valueError "-x has to be specified before -X")
      else .ok { st with
        expectedFailures := dinsert nm (some m) st.expectedFailures }
  | .numOpt n => .ok { st with numLimit := n }
  | .dheFlag => .ok { st with dhe := true }
  | .cipherOpt n => .ok { st with ciphers := some [n] }
  | .emsFlag => .ok { st with ems := true }
  | .helpFlag => .error .helpExit

/-- The option loop from a given state. -/
def parseOptsFrom (st : OptState) : List Opt → Except ParseExit OptState
  | [] => .ok st
  | o :: rest =>
    match procOpt st o with
    | .ok st' => parseOptsFrom st' rest
    | .error e => .error e

/-- The whole option loop from the initial state. -/
def parseOpts (opts : List Opt) : Except ParseExit OptState :=
  parseOptsFrom {} opts

/-- Conversations are built and executed only after the option loop finishes
(everything from line 104 onward), so `main` is the option loop followed by
the rest of the run: an option-loop exit produces no executed
conversation. -/
def mainAfterOpts {γ : Type} (opts : List Opt) (rest : OptState → γ) :
    Except ParseExit γ :=
  (parseOpts opts).map rest

theorem parseOptsFrom_expectMsg_error (m : String) (post : List Opt) :
    ∀ (pre : List Opt) (st : OptState),
    (∀ s, Opt.expectFail s ∉ pre) → Opt.helpFlag ∉ pre →
    (st.lastExp = none ∨ st.lastExp = some "") →
    parseOptsFrom st (pre ++ Opt.expectMsg m :: post) =
      Except.error
        (ParseExit.valueError "-x has to be specified before -X") := by
  intro pre
  induction pre with
  | nil =>
    intro st _ _ hfalsy
    rcases hfalsy with h | h <;> simp [parseOptsFrom, procOpt, h]
  | cons o pre' ih =>
    intro st hnx hnh hfalsy
    have hnx' : ∀ s, Opt.expectFail s ∉ pre' :=
      fun s h => hnx s (List.mem_cons_of_mem _ h)
    have hnh' : Opt.helpFlag ∉ pre' :=
      fun h => hnh (List.mem_cons_of_mem _ h)
    match o with
    | .host s =>
      rw [List.cons_append, parseOptsFrom, procOpt]
      exact ih _ hnx' hnh' (by simpa using hfalsy)
    | .port n =>
      rw [List.cons_append, parseOptsFrom, procOpt]
      exact ih _ hnx' hnh' (by simpa using hfalsy)
    | .exclude s =>
      rw [List.cons_append, parseOptsFrom, procOpt]
      exact ih _ hnx' hnh' (by simpa using hfalsy)
    | .expectFail s => exact absurd (List.mem_cons_self _ _) (hnx s)
    | .expectMsg m' =>
      rcases hfalsy with h | h <;>
        simp [List.cons_append, parseOptsFrom, procOpt, h]
    | .numOpt n =>
      rw [List.cons_append, parseOptsFrom, procOpt]
      exact ih _ hnx' hnh' (by simpa using hfalsy)
    | .dheFlag =>
      rw [List.cons_append, parseOptsFrom, procOpt]
      exact ih _ hnx' hnh' (by simpa using hfalsy)
    | .cipherOpt n =>
      rw [List.cons_append, parseOptsFrom, procOpt]
      exact ih _ hnx' hnh' (by simpa using hfalsy)
    | .emsFlag =>
      rw [List.cons_append, parseOptsFrom, procOpt]
      exact ih _ hnx' hnh' (by simpa using hfalsy)
    | .helpFlag => exact absurd (List.mem_cons_self _ _) hnh

/-- **C9 counterexample.** In `["--help", "-X m"]` the `-X` appears before
any `-x`, yet option processing exits through `--help` (`sys.exit(0)`), not
with the claimed ValueError; and in `["-x ''", "-X m"]` the `-X` follows a
`-x`, yet processing raises the ValueError instead of attaching the
substring, because `if not last_exp_tmp` treats the empty probe name as
unset. -/
theorem expect_msg_ordering_counterexample :
    parseOpts [Opt.helpFlag, Opt.expectMsg "m"] =
      Except.error ParseExit.helpExit ∧
    ParseExit.helpExit ≠
      ParseExit.valueError "-x has to be specified before -X" ∧
    parseOpts [Opt.expectFail "", Opt.expectMsg "m"] =
      Except.error
        (ParseExit.valueError "-x has to be specified before -X") :=
  ⟨rfl, by simp, rfl⟩

/-- **C9 (amended).** On a command line containing no `--help`, a `-X`
before any `-x` makes the option loop — and hence the whole run, which
executes conversations only after the loop — fail with
`ValueError("-x has to be specified before -X")`; and a `-X` processed when
the most recently named probe is nonempty attaches its substring to that
probe in the expected-failure registry. -/
theorem expect_msg_ordering {γ : Type} (pre post : List Opt) (m : String)
    (rest : OptState → γ)
    (hnx : ∀ s, Opt.expectFail s ∉ pre)
    (hnh : Opt.helpFlag ∉ pre) :
    mainAfterOpts (pre ++ Opt.expectMsg m :: post) rest =
      Except.error
        (ParseExit.valueError "-x has to be specified before -X") ∧
    (∀ st : OptState, ∀ nm, st.lastExp = some nm → nm ≠ "" →
      procOpt st (Opt.expectMsg m) =
        Except.ok { st with
          expectedFailures := dinsert nm (some m) st.expectedFailures } ∧
      dlookup nm (dinsert nm (some m) st.expectedFailures) =
        some (some m)) := by
  constructor
  · rw [mainAfterOpts, parseOpts,
      parseOptsFrom_expectMsg_error m post pre {} hnx hnh (Or.inl rfl)]
    rfl
  · intro st nm hlast hne
    refine ⟨?_, dlookup_dinsert_self nm (some m) st.expectedFailures⟩
    simp [procOpt, hlast, hne]

/-- Witness for C9's amended claim on a concrete command line. -/
theorem expect_msg_ordering_witness :
    mainAfterOpts ([Opt.host "srv"] ++ Opt.expectMsg "msg" :: [])
      (fun st : OptState => st.numLimit) =
      Except.error
        (ParseExit.valueError "-x has to be specified before -X") ∧
    (∀ st : OptState, ∀ nm, st.lastExp = some nm → nm ≠ "" →
      procOpt st (Opt.expectMsg "msg") =
        Except.ok { st with
          expectedFailures := dinsert nm (some "msg") st.expectedFailures } ∧
      dlookup nm (dinsert nm (some "msg") st.expectedFailures) =
        some (some "msg")) :=
  expect_msg_ordering [Opt.host "srv"] [] "msg"
    (fun st : OptState => st.numLimit)
    (by intro s h; simp at h) (by simp)

/-- **C10.** After the loop, `good + bad + xfail + xpass` equals the number
of executed Conversations, which is `len(sampled_tests) + 2`, the number
printed on the `TOTAL:` line.  (Script lines 393–414 and 420.) -/
theorem totals_consistent (reg : List (ConvName × Option String))
    (convs sampled : List (ConvName × TreeNode))
    (beh : Nat → Option String) :
    countersSum (runAll reg (orderedTests (sanityTests convs) sampled) beh) =
      (orderedTests (sanityTests convs) sampled).length ∧
    (orderedTests (sanityTests convs) sampled).length = sampled.length + 2 ∧
    totalLine (sanityTests convs) sampled = sampled.length + 2 := by
  refine ⟨countersSum_runAll _ _ _, ?_, ?_⟩ <;>
    simp [orderedTests, sanityTests, totalLine]

/-- Witness for C10 on a concrete ordered run. -/
theorem totals_consistent_witness :
    countersSum (runAll ([] : List (ConvName × Option String))
      (orderedTests (sanityTests [(ConvName.sanity, stubTree)])
        [(ConvName.clientHelloType 3, stubTree)]) (fun _ => none)) =
      (orderedTests (sanityTests [(ConvName.sanity, stubTree)])
        [(ConvName.clientHelloType 3, stubTree)]).length ∧
    (orderedTests (sanityTests [(ConvName.sanity, stubTree)])
      [(ConvName.clientHelloType 3, stubTree)]).length =
      [(ConvName.clientHelloType 3, stubTree)].length + 2 ∧
    totalLine (sanityTests [(ConvName.sanity, stubTree)])
      [(ConvName.clientHelloType 3, stubTree)] =
      [(ConvName.clientHelloType 3, stubTree)].length + 2 :=
  totals_consistent [] [(ConvName.sanity, stubTree)]
    [(ConvName.clientHelloType 3, stubTree)] (fun _ => none)

/-- Witness for C2 on a concrete run: one conversation, no exception. -/
theorem exit_status_iff_witness :
    (exitCode (runAll ([] : List (String × Option String))
        [("a", stubTree)] (fun _ => none)) = 1 ↔
      ∃ j, ∃ h : j < ([("a", stubTree)] : List (String × TreeNode)).length,
        outcomeOf ([] : List (String × Option String))
          (([("a", stubTree)] : List (String × TreeNode)).get ⟨j, h⟩).1
          ((fun _ => (none : Option String)) j) = Outcome.fail ∨
        outcomeOf ([] : List (String × Option String))
          (([("a", stubTree)] : List (String × TreeNode)).get ⟨j, h⟩).1
          ((fun _ => (none : Option String)) j) = Outcome.xpass) ∧
    (exitCode (runAll ([] : List (String × Option String))
        [("a", stubTree)] (fun _ => none)) = 0 ↔
      ∀ j, ∀ h : j < ([("a", stubTree)] : List (String × TreeNode)).length,
        outcomeOf ([] : List (String × Option String))
          (([("a", stubTree)] : List (String × TreeNode)).get ⟨j, h⟩).1
          ((fun _ => (none : Option String)) j) = Outcome.pass ∨
        outcomeOf ([] : List (String × Option String))
          (([("a", stubTree)] : List (String × TreeNode)).get ⟨j, h⟩).1
          ((fun _ => (none : Option String)) j) = Outcome.xfail) :=
  exit_status_iff [] [("a", stubTree)] (fun _ => none)

/-- Witness for C8 at the default host, port and cipher. -/
theorem session_id_fuzz_37_witness :
    dlookup (ConvName.sessionIdLen 37)
      (conversations "localhost" 4433 [rsaAes128] false false) =
      some (fuzzConv "localhost" 4433 (helloNoExt [rsaAes128] false false)
        [] [(38, 37)] (some .fatal) (some .decode_error)) ∧
    runConv
      (fuzzConv "localhost" 4433 (helloNoExt [rsaAes128] false false)
        [] [(38, 37)] (some .fatal) (some .decode_error))
      [.alert .fatal .decode_error, .close] = true ∧
    outcomeOf ([] : List (ConvName × Option String))
      (ConvName.sessionIdLen 37) none = .pass :=
  session_id_fuzz_37 "localhost" 4433 [rsaAes128]

end ClientHelloFuzz
